import Mathlib

/-!
Shallow embedding of the vscode-ts-customized-language-service core:
the condition-truthiness classifier and condition checker
(conditionChecker variant with declared-type resolution and
any/unknown suppression), the property-initialization-order checker
(propertyInitOrderChecker), and the navigation decorations of
decorateLanguageService (duplicate-definition collapse, untyped-field
redirection, indirect-constructor-reference inclusion), together with
proofs about them.

Host-owned data (syntax trees, types, symbol tables, baseline query
results) is modelled as explicit data structures and oracle functions;
the logic of the plugin itself is translated function by function from
the TypeScript source.
-/

namespace TsPlugin

/-- Syntax kinds of the host compiler frontend that the plugin code
inspects (a small closed subset of the host's kind enumeration). -/
inductive SKind where
  | identifier
  | thisKeyword
  | constructorKeyword
  | equalsToken
  | sourceFileKind
  | classDeclaration
  | propertyDeclaration
  | methodDeclaration
  | getAccessor
  | setAccessor
  | constructorDeclaration
  | classStaticBlock
  | arrowFunction
  | functionExpression
  | functionDeclaration
  | parameter
  | propertyAccessExpression
  | elementAccessExpression
  | callExpression
  | taggedTemplateExpression
  | binaryExpression
  | conditionalExpression
  | ifStatement
  | expressionStatement
  | blockKind
  | returnStatement
  | typeNodeKind
  | literalKind
  | otherKind
  deriving DecidableEq, Repr

/-- Classification-bit vector of a host `Type` (the `TypeFlags` bits the
classifier reads), plus the payloads the classifier extracts:
the boolean-literal intrinsic name (`some true` for the `true` type,
`some false` for the `false` type), a string-literal value, and a
number-literal value. -/
structure TyFlags where
  boolLit : Bool
  intrinsicName : Option Bool
  boolean : Bool
  undefF : Bool
  nullF : Bool
  voidF : Bool
  stringLit : Bool
  strVal : String
  numberLit : Bool
  numVal : Int
  stringF : Bool
  numberF : Bool
  objectF : Bool
  nonPrimitive : Bool
  unionF : Bool
  anyF : Bool
  unknownF : Bool
  deriving DecidableEq, Repr

/-- A host `Type`: its flag vector and, for union types, the ordered
constituent list. -/
inductive Ty where
  | mk (flags : TyFlags) (constituents : List Ty)

def Ty.flags : Ty → TyFlags
  | .mk f _ => f

def Ty.constituents : Ty → List Ty
  | .mk _ cs => cs

/-- `getBooleanLiteralIntrinsicName`: the intrinsic name of a boolean
literal type, or `none` when the type does not carry the
`BooleanLiteral` flag. -/
def getBooleanLiteralIntrinsicName (t : Ty) : Option Bool :=
  if t.flags.boolLit then t.flags.intrinsicName else none

mutual

/-- `canBeTruthyValue` of the condition checker: can a value of this
type be truthy?  Checks run in the source's order: boolean literal,
general boolean, undefined/null/void, string literal, number literal,
object/non-primitive, union (any constituent), plain string/number,
any/unknown, default true. -/
def canBeTruthyValue : Ty → Bool
  | .mk f cs =>
    match (if f.boolLit then f.intrinsicName else none) with
    | some b => b
    | none =>
      if f.boolean then true
      else if f.undefF || f.nullF || f.voidF then false
      else if f.stringLit then f.strVal != ""
      else if f.numberLit then f.numVal != 0
      else if f.objectF || f.nonPrimitive then true
      else if f.unionF then anyCanBeTruthy cs
      else if f.stringF || f.numberF then true
      else if f.anyF || f.unknownF then true
      else true

/-- `unionType.types.some(t => canBeTruthyValue(t))`. -/
def anyCanBeTruthy : List Ty → Bool
  | [] => false
  | t :: ts => canBeTruthyValue t || anyCanBeTruthy ts

end

mutual

/-- `canBeFalsyValue` of the condition checker: can a value of this
type be falsy?  Checks run in the source's order: boolean literal,
general boolean, undefined/null/void, string literal, number literal,
plain string, plain number, object/non-primitive, union (any
constituent), any/unknown, default true. -/
def canBeFalsyValue : Ty → Bool
  | .mk f cs =>
    match (if f.boolLit then f.intrinsicName else none) with
    | some b => !b
    | none =>
      if f.boolean then true
      else if f.undefF || f.nullF || f.voidF then true
      else if f.stringLit then f.strVal == ""
      else if f.numberLit then f.numVal == 0
      else if f.stringF then true
      else if f.numberF then true
      else if f.objectF || f.nonPrimitive then false
      else if f.unionF then anyCanBeFalsy cs
      else if f.anyF || f.unknownF then true
      else true

/-- `unionType.types.some(t => canBeFalsyValue(t))`. -/
def anyCanBeFalsy : List Ty → Bool
  | [] => false
  | t :: ts => canBeFalsyValue t || anyCanBeFalsy ts

end

/-- `isBooleanType` of the condition checker: the general boolean flag,
or a union containing a true literal and a false literal and nothing
else (presence flags `hasTrue`/`hasFalse`/`hasOther` of the source's
loop, expressed as list searches). -/
def isBooleanType (t : Ty) : Bool :=
  if t.flags.boolean then true
  else if t.flags.unionF then
    (t.constituents.any fun c => getBooleanLiteralIntrinsicName c == some true)
      && (t.constituents.any fun c => getBooleanLiteralIntrinsicName c == some false)
      && !(t.constituents.any fun c => getBooleanLiteralIntrinsicName c == none)
  else false

/-! ## Host syntax trees

Nodes of the host's immutable syntax tree.  Each node stores its full
start (`pos`), its trivia-skipping start (`st`, the host's
`getStart()`), and its end (`en`).  Parent links are realised through
descent paths: every traversal in the source only ever reaches a node
by walking down from the file root, so a node's parent chain is the
reverse of the path used to reach it. -/

inductive ANode where
  | sourceFile (pos st en : Nat) (stmts : List ANode)
  | classDecl (pos st en : Nat) (className : String) (members : List ANode)
  | propertyDecl (pos st en : Nat) (modifiers : List ANode) (nameTok : ANode)
      (typeAnn : Option ANode) (fieldInit : Option ANode)
  | ctorDecl (pos st en : Nat) (kw : ANode) (params : List ANode) (body : Option ANode)
  | blockNode (pos st en : Nat) (stmts : List ANode)
  | exprStmt (pos st en : Nat) (e : ANode)
  | binary (pos st en : Nat) (lhs : ANode) (op : ANode) (rhs : ANode)
  | propAccess (pos st en : Nat) (obj : ANode) (nameTok : ANode)
  | call (pos st en : Nat) (callee : ANode) (args : List ANode)
  | ifStmt (pos st en : Nat) (test : ANode) (thenPart : ANode)
  | ident (pos st en : Nat) (text : String)
  | thisKw (pos st en : Nat)
  | lit (pos st en : Nat) (text : String)
  | tok (k : SKind) (pos st en : Nat)
  | otherNode (k : SKind) (pos st en : Nat) (children : List ANode)

/-- The host's kind tag of a node. -/
def kindOf : ANode → SKind
  | .sourceFile .. => .sourceFileKind
  | .classDecl .. => .classDeclaration
  | .propertyDecl .. => .propertyDeclaration
  | .ctorDecl .. => .constructorDeclaration
  | .blockNode .. => .blockKind
  | .exprStmt .. => .expressionStatement
  | .binary .. => .binaryExpression
  | .propAccess .. => .propertyAccessExpression
  | .call .. => .callExpression
  | .ifStmt .. => .ifStatement
  | .ident .. => .identifier
  | .thisKw .. => .thisKeyword
  | .lit .. => .literalKind
  | .tok k .. => k
  | .otherNode k .. => k

/-- Full start of a node (the host's `node.pos`). -/
def nodePos : ANode → Nat
  | .sourceFile p .. => p
  | .classDecl p .. => p
  | .propertyDecl p .. => p
  | .ctorDecl p .. => p
  | .blockNode p .. => p
  | .exprStmt p .. => p
  | .binary p .. => p
  | .propAccess p .. => p
  | .call p .. => p
  | .ifStmt p .. => p
  | .ident p .. => p
  | .thisKw p .. => p
  | .lit p .. => p
  | .tok _ p .. => p
  | .otherNode _ p .. => p

/-- Trivia-skipping start of a node (the host's `node.getStart()`). -/
def nodeStart : ANode → Nat
  | .sourceFile _ s .. => s
  | .classDecl _ s .. => s
  | .propertyDecl _ s .. => s
  | .ctorDecl _ s .. => s
  | .blockNode _ s .. => s
  | .exprStmt _ s .. => s
  | .binary _ s .. => s
  | .propAccess _ s .. => s
  | .call _ s .. => s
  | .ifStmt _ s .. => s
  | .ident _ s .. => s
  | .thisKw _ s .. => s
  | .lit _ s .. => s
  | .tok _ _ s .. => s
  | .otherNode _ _ s .. => s

/-- End of a node (the host's `node.end` and `node.getEnd()`). -/
def nodeEnd : ANode → Nat
  | .sourceFile _ _ e .. => e
  | .classDecl _ _ e .. => e
  | .propertyDecl _ _ e .. => e
  | .ctorDecl _ _ e .. => e
  | .blockNode _ _ e .. => e
  | .exprStmt _ _ e .. => e
  | .binary _ _ e .. => e
  | .propAccess _ _ e .. => e
  | .call _ _ e .. => e
  | .ifStmt _ _ e .. => e
  | .ident _ _ e .. => e
  | .thisKw _ _ e .. => e
  | .lit _ _ e .. => e
  | .tok _ _ _ e => e
  | .otherNode _ _ _ e _ => e

/-- The host's `node.getChildren()`: child list including tokens (the
constructor keyword, the operator token of a binary expression). -/
def getChildren : ANode → List ANode
  | .sourceFile _ _ _ stmts => stmts
  | .classDecl _ _ _ _ members => members
  | .propertyDecl _ _ _ mods nameTok tyAnn finit =>
      mods ++ [nameTok] ++ tyAnn.toList ++ finit.toList
  | .ctorDecl _ _ _ kw params body => kw :: (params ++ body.toList)
  | .blockNode _ _ _ stmts => stmts
  | .exprStmt _ _ _ e => [e]
  | .binary _ _ _ l op r => [l, op, r]
  | .propAccess _ _ _ obj nameTok => [obj, nameTok]
  | .call _ _ _ callee args => callee :: args
  | .ifStmt _ _ _ t b => [t, b]
  | .ident .. => []
  | .thisKw .. => []
  | .lit .. => []
  | .tok .. => []
  | .otherNode _ _ _ _ children => children

/-- The host's `forEachChild` child list: named children only (no pure
tokens such as the constructor keyword). -/
def forEachChildList : ANode → List ANode
  | .ctorDecl _ _ _ _ params body => params ++ body.toList
  | n => getChildren n

mutual

/-- Depth of a syntax node (used as a recursion bound for the descent
loops, which in the source recurse without an explicit bound; the bound
is proved sufficient below). -/
def nodeDepth : ANode → Nat
  | .sourceFile _ _ _ stmts => nodeDepthList stmts + 1
  | .classDecl _ _ _ _ members => nodeDepthList members + 1
  | .propertyDecl _ _ _ mods nameTok tyAnn finit =>
      max (max (nodeDepthList mods) (nodeDepth nameTok))
        (max (nodeDepthOpt tyAnn) (nodeDepthOpt finit)) + 1
  | .ctorDecl _ _ _ kw params body =>
      max (nodeDepth kw) (max (nodeDepthList params) (nodeDepthOpt body)) + 1
  | .blockNode _ _ _ stmts => nodeDepthList stmts + 1
  | .exprStmt _ _ _ e => nodeDepth e + 1
  | .binary _ _ _ l op r => max (nodeDepth l) (max (nodeDepth op) (nodeDepth r)) + 1
  | .propAccess _ _ _ obj nameTok => max (nodeDepth obj) (nodeDepth nameTok) + 1
  | .call _ _ _ callee args => max (nodeDepth callee) (nodeDepthList args) + 1
  | .ifStmt _ _ _ t b => max (nodeDepth t) (nodeDepth b) + 1
  | .ident .. => 1
  | .thisKw .. => 1
  | .lit .. => 1
  | .tok .. => 1
  | .otherNode _ _ _ _ children => nodeDepthList children + 1

def nodeDepthList : List ANode → Nat
  | [] => 0
  | a :: as => max (nodeDepth a) (nodeDepthList as)

def nodeDepthOpt : Option ANode → Nat
  | none => 0
  | some a => nodeDepth a

end

theorem nodeDepth_le_nodeDepthList {c : ANode} {l : List ANode} (h : c ∈ l) :
    nodeDepth c ≤ nodeDepthList l := by
  induction l with
  | nil => cases h
  | cons a as ih =>
    rcases List.mem_cons.mp h with rfl | h2
    · simp [nodeDepthList]
    · simp only [nodeDepthList]
      exact le_max_of_le_right (ih h2)

theorem nodeDepth_lt_of_mem_getChildren {n c : ANode} (h : c ∈ getChildren n) :
    nodeDepth c < nodeDepth n := by
  cases n <;>
    simp only [getChildren, List.mem_append, List.mem_cons, List.mem_singleton,
      Option.mem_toList, Option.mem_def, List.not_mem_nil, or_false, false_or] at h
  case sourceFile pos st en stmts =>
    have hle := nodeDepth_le_nodeDepthList h
    simp only [nodeDepth]; omega
  case classDecl pos st en nm members =>
    have hle := nodeDepth_le_nodeDepthList h
    simp only [nodeDepth]; omega
  case propertyDecl pos st en mods nameTok tyAnn finit =>
    simp only [nodeDepth]
    rcases h with ((h | rfl) | h) | h
    · have hle := nodeDepth_le_nodeDepthList h
      have h1 := le_max_left (nodeDepthList mods) (nodeDepth nameTok)
      have h2 := le_max_left (max (nodeDepthList mods) (nodeDepth nameTok))
        (max (nodeDepthOpt tyAnn) (nodeDepthOpt finit))
      omega
    · have h1 := le_max_right (nodeDepthList mods) (nodeDepth c)
      have h2 := le_max_left (max (nodeDepthList mods) (nodeDepth c))
        (max (nodeDepthOpt tyAnn) (nodeDepthOpt finit))
      omega
    · subst h
      have h1 : nodeDepth c ≤ nodeDepthOpt (some c) := le_refl _
      have h2 := le_max_left (nodeDepthOpt (some c)) (nodeDepthOpt finit)
      have h3 := le_max_right (max (nodeDepthList mods) (nodeDepth nameTok))
        (max (nodeDepthOpt (some c)) (nodeDepthOpt finit))
      omega
    · subst h
      have h1 : nodeDepth c ≤ nodeDepthOpt (some c) := le_refl _
      have h2 := le_max_right (nodeDepthOpt tyAnn) (nodeDepthOpt (some c))
      have h3 := le_max_right (max (nodeDepthList mods) (nodeDepth nameTok))
        (max (nodeDepthOpt tyAnn) (nodeDepthOpt (some c)))
      omega
  case ctorDecl pos st en kw params body =>
    simp only [nodeDepth]
    rcases h with rfl | h | h
    · have h1 := le_max_left (nodeDepth c) (max (nodeDepthList params) (nodeDepthOpt body))
      omega
    · have hle := nodeDepth_le_nodeDepthList h
      have h1 := le_max_left (nodeDepthList params) (nodeDepthOpt body)
      have h2 := le_max_right (nodeDepth kw) (max (nodeDepthList params) (nodeDepthOpt body))
      omega
    · subst h
      have h1 := le_max_right (nodeDepthList params) (nodeDepthOpt (some c))
      have h2 := le_max_right (nodeDepth kw) (max (nodeDepthList params) (nodeDepthOpt (some c)))
      have h3 : nodeDepth c ≤ nodeDepthOpt (some c) := le_refl _
      omega
  case blockNode pos st en stmts =>
    have hle := nodeDepth_le_nodeDepthList h
    simp only [nodeDepth]; omega
  case exprStmt pos st en e =>
    subst h; simp only [nodeDepth]; omega
  case binary pos st en l op r =>
    simp only [nodeDepth]
    rcases h with rfl | rfl | rfl
    · have h1 := le_max_left (nodeDepth c) (max (nodeDepth op) (nodeDepth r))
      omega
    · have h1 := le_max_left (nodeDepth c) (nodeDepth r)
      have h2 := le_max_right (nodeDepth l) (max (nodeDepth c) (nodeDepth r))
      omega
    · have h1 := le_max_right (nodeDepth op) (nodeDepth c)
      have h2 := le_max_right (nodeDepth l) (max (nodeDepth op) (nodeDepth c))
      omega
  case propAccess pos st en obj nameTok =>
    simp only [nodeDepth]
    rcases h with rfl | rfl
    · have h1 := le_max_left (nodeDepth c) (nodeDepth nameTok)
      omega
    · have h1 := le_max_right (nodeDepth obj) (nodeDepth c)
      omega
  case call pos st en callee args =>
    simp only [nodeDepth]
    rcases h with rfl | h
    · have h1 := le_max_left (nodeDepth c) (nodeDepthList args)
      omega
    · have hle := nodeDepth_le_nodeDepthList h
      have h1 := le_max_right (nodeDepth callee) (nodeDepthList args)
      omega
  case ifStmt pos st en t b =>
    simp only [nodeDepth]
    rcases h with rfl | rfl
    · have h1 := le_max_left (nodeDepth c) (nodeDepth b)
      omega
    · have h1 := le_max_right (nodeDepth t) (nodeDepth c)
      omega
  case otherNode k pos st en children =>
    have hle := nodeDepth_le_nodeDepthList h
    simp only [nodeDepth]; omega

theorem mem_getChildren_of_mem_forEachChildList {n c : ANode}
    (h : c ∈ forEachChildList n) : c ∈ getChildren n := by
  cases n <;> simp only [forEachChildList, getChildren] at h ⊢ <;>
    first
      | exact h
      | exact List.mem_cons_of_mem _ h

/-- Predicate of `findChildInPosition` in `findLeafNodeAtPosition`:
`child.pos <= pos && child.end >= pos` (both bounds inclusive). -/
def leafSpanContains (p : Nat) (c : ANode) : Bool :=
  decide (nodePos c ≤ p) && decide (p ≤ nodeEnd c)

/-- Fueled form of the descent performed by `findChildInPosition` inside
`findLeafNodeAtPosition`: the chain of nodes the mutable `node` variable
is successively assigned below `cur`.  At each level the loop takes the
first child whose `[pos, end]` span contains the position and recurses
into it.  The fuel only bounds the recursion depth; it is proved
sufficient whenever it is at least the node depth, so the definition
agrees with the source's unbounded recursion (see
`findLeafDescend_unfold`). -/
def findLeafDescendAux (p : Nat) : Nat → ANode → List ANode
  | 0, _ => []
  | fuel + 1, cur =>
    match (getChildren cur).find? (leafSpanContains p) with
    | none => []
    | some c => c :: findLeafDescendAux p fuel c

def findLeafDescend (p : Nat) (cur : ANode) : List ANode :=
  findLeafDescendAux p (nodeDepth cur) cur

theorem findLeafDescendAux_stable (p : Nat) :
    ∀ (f1 : Nat) (cur : ANode) (f2 : Nat), nodeDepth cur ≤ f1 → nodeDepth cur ≤ f2 →
      findLeafDescendAux p f1 cur = findLeafDescendAux p f2 cur := by
  intro f1
  induction f1 with
  | zero =>
    intro cur f2 h1 _
    cases cur <;> simp [nodeDepth] at h1
  | succ f ih =>
    intro cur f2 h1 h2
    have hd : 1 ≤ nodeDepth cur := by cases cur <;> simp [nodeDepth]
    obtain ⟨g, rfl⟩ : ∃ g, f2 = g + 1 := ⟨f2 - 1, by omega⟩
    simp only [findLeafDescendAux]
    cases hf : (getChildren cur).find? (leafSpanContains p) with
    | none => rfl
    | some c =>
      have hlt := nodeDepth_lt_of_mem_getChildren (List.mem_of_find?_eq_some hf)
      have hc1 : nodeDepth c ≤ f := by omega
      have hc2 : nodeDepth c ≤ g := by omega
      simp only [List.cons.injEq, true_and]
      exact ih c g hc1 hc2

/-- The fueled descent satisfies exactly the recursion of the source's
`findChildInPosition` loop. -/
theorem findLeafDescend_unfold (p : Nat) (cur : ANode) :
    findLeafDescend p cur =
      match (getChildren cur).find? (leafSpanContains p) with
      | none => []
      | some c => c :: findLeafDescend p c := by
  unfold findLeafDescend
  have hd : 1 ≤ nodeDepth cur := by cases cur <;> simp [nodeDepth]
  obtain ⟨d, hdep⟩ : ∃ d, nodeDepth cur = d + 1 := ⟨nodeDepth cur - 1, by omega⟩
  rw [hdep]
  simp only [findLeafDescendAux]
  cases hf : (getChildren cur).find? (leafSpanContains p) with
  | none => rfl
  | some c =>
    have hlt := nodeDepth_lt_of_mem_getChildren (List.mem_of_find?_eq_some hf)
    simp only [List.cons.injEq, true_and]
    exact findLeafDescendAux_stable p d c (nodeDepth c) (by omega) (le_refl _)

/-- The root-to-result path of `findLeafNodeAtPosition`: the initial
value of the mutable `node` variable (the source file) followed by
every assignment made during the descent. -/
def findLeafPath (sf : ANode) (p : Nat) : List ANode :=
  sf :: findLeafDescend p sf

/-- `findLeafNodeAtPosition` of decorateLanguageService: the final value
of the mutable `node` variable, of host type `Node | undefined`. -/
def findLeafNodeAtPosition (sf : ANode) (p : Nat) : Option ANode :=
  (findLeafPath sf p).getLast?

/-- Predicate of `findNodeAtPosition`'s `visit`:
`position >= node.getStart() && position < node.getEnd()`. -/
def nodeSpanContains (p : Nat) (c : ANode) : Bool :=
  decide (nodeStart c ≤ p) && decide (p < nodeEnd c)

/-- Fueled descent of `findNodeAtPosition`'s `visit`: at each level,
the first `forEachChild` child whose `[getStart, getEnd)` span contains
the position, recursively (fuel proved sufficient, see
`findNodeDescend_unfold`). -/
def findNodeDescendAux (p : Nat) : Nat → ANode → List ANode
  | 0, _ => []
  | fuel + 1, cur =>
    match (forEachChildList cur).find? (nodeSpanContains p) with
    | none => []
    | some c => c :: findNodeDescendAux p fuel c

def findNodeDescend (p : Nat) (cur : ANode) : List ANode :=
  findNodeDescendAux p (nodeDepth cur) cur

theorem findNodeDescendAux_stable (p : Nat) :
    ∀ (f1 : Nat) (cur : ANode) (f2 : Nat), nodeDepth cur ≤ f1 → nodeDepth cur ≤ f2 →
      findNodeDescendAux p f1 cur = findNodeDescendAux p f2 cur := by
  intro f1
  induction f1 with
  | zero =>
    intro cur f2 h1 _
    cases cur <;> simp [nodeDepth] at h1
  | succ f ih =>
    intro cur f2 h1 h2
    have hd : 1 ≤ nodeDepth cur := by cases cur <;> simp [nodeDepth]
    obtain ⟨g, rfl⟩ : ∃ g, f2 = g + 1 := ⟨f2 - 1, by omega⟩
    simp only [findNodeDescendAux]
    cases hf : (forEachChildList cur).find? (nodeSpanContains p) with
    | none => rfl
    | some c =>
      have hlt := nodeDepth_lt_of_mem_getChildren
        (mem_getChildren_of_mem_forEachChildList (List.mem_of_find?_eq_some hf))
      have hc1 : nodeDepth c ≤ f := by omega
      have hc2 : nodeDepth c ≤ g := by omega
      simp only [List.cons.injEq, true_and]
      exact ih c g hc1 hc2

/-- The fueled descent satisfies exactly the recursion of the source's
`visit` in `findNodeAtPosition`. -/
theorem findNodeDescend_unfold (p : Nat) (cur : ANode) :
    findNodeDescend p cur =
      match (forEachChildList cur).find? (nodeSpanContains p) with
      | none => []
      | some c => c :: findNodeDescend p c := by
  unfold findNodeDescend
  have hd : 1 ≤ nodeDepth cur := by cases cur <;> simp [nodeDepth]
  obtain ⟨d, hdep⟩ : ∃ d, nodeDepth cur = d + 1 := ⟨nodeDepth cur - 1, by omega⟩
  rw [hdep]
  simp only [findNodeDescendAux]
  cases hf : (forEachChildList cur).find? (nodeSpanContains p) with
  | none => rfl
  | some c =>
    have hlt := nodeDepth_lt_of_mem_getChildren
      (mem_getChildren_of_mem_forEachChildList (List.mem_of_find?_eq_some hf))
    simp only [List.cons.injEq, true_and]
    exact findNodeDescendAux_stable p d c (nodeDepth c) (by omega) (le_refl _)

/-- Root-to-result path of `findNodeAtPosition`: defined only when the
root's own span contains the position (the source's `visit` returns
`undefined` otherwise). -/
def findNodePath (sf : ANode) (p : Nat) : Option (List ANode) :=
  if nodeStart sf ≤ p ∧ p < nodeEnd sf then some (sf :: findNodeDescend p sf) else none

/-- `findNodeAtPosition` of decorateLanguageService. -/
def findNodeAtPosition (sf : ANode) (p : Nat) : Option ANode :=
  (findNodePath sf p).bind List.getLast?

/-! ## Condition checker

Model of `checkConditionExpression` from the condition-checker variant
with declared-type resolution and any/unknown suppression.  The host's
type checker and symbol table are oracle functions collected in a
`TypeContext`; the declared-type substitution loop over a symbol's
declarations and the decision table are translated from the source. -/

/-- Diagnostic category of a `ConditionDiagnostic`. -/
inductive CondCategory where
  | warning
  | hint
  deriving DecidableEq, Repr

/-- The `conditionType` tag carried by always-true / always-false
diagnostics. -/
inductive CondTag where
  | alwaysTrue
  | alwaysFalse
  deriving DecidableEq, Repr

/-- `ConditionDiagnostic` of the condition checker. -/
structure ConditionDiagnostic where
  message : String
  node : ANode
  category : CondCategory
  code : Option Nat
  conditionType : Option CondTag

/-- What the source reads off one declaration's explicit type
annotation: the type resolved from the annotation node
(`getTypeFromTypeNode`), whether the annotation is a type-reference
node, and — when the reference's symbol resolves, its first declaration
is a type alias and that alias has a type node — the one-level-expanded
type. -/
structure TyAnnot where
  fromTypeNode : Ty
  isTypeReference : Bool
  aliasExpandedType : Option Ty

/-- One declaration of an identifier's symbol, as inspected by the
declared-type loop: is it a variable declaration, is it a parameter,
and its explicit type annotation if any. -/
structure SymbolDecl where
  isVariableDecl : Bool
  isParam : Bool
  typeAnn : Option TyAnnot

/-- The declared type produced from one annotation: the annotation's
type, with one level of alias indirection expanded when the annotation
is a type reference whose alias chain resolves. -/
def declaredTypeOfAnnot (a : TyAnnot) : Ty :=
  if a.isTypeReference then
    match a.aliasExpandedType with
    | some e => e
    | none => a.fromTypeNode
  else a.fromTypeNode

/-- The source's loop over a symbol's declarations: the first
declaration that is a variable declaration or parameter and carries a
type annotation determines the declared type (the loop breaks there). -/
def declaredTypeLoop : List SymbolDecl → Option Ty
  | [] => none
  | d :: rest =>
    match d.typeAnn with
    | some a =>
      if d.isVariableDecl || d.isParam then some (declaredTypeOfAnnot a)
      else declaredTypeLoop rest
    | none => declaredTypeLoop rest

/-- Host type-system oracles used by `checkConditionExpression`:
`typeAt` is `typeChecker.getTypeAtLocation`; `symbolDecls` combines
`getSymbolAtLocation` and `symbol.getDeclarations()` (the empty list
models a missing symbol or empty declaration list). -/
structure TypeContext where
  typeAt : ANode → Ty
  symbolDecls : ANode → List SymbolDecl

/-- Steps 1–2 of `checkConditionExpression`: the narrowed type of the
expression, replaced — when the expression is a bare identifier whose
symbol has a variable/parameter declaration with an explicit type
annotation — by the declared type from that annotation. -/
def resolveConditionType (ctx : TypeContext) (expr : ANode) : Ty :=
  let t := ctx.typeAt expr
  if kindOf expr = SKind.identifier then
    match declaredTypeLoop (ctx.symbolDecls expr) with
    | some declared => declared
    | none => t
  else t

def alwaysFalseMessage : String := "This condition will always return 'false'."

def alwaysTrueMessage : String := "This condition will always return 'true'."

def notBooleanMessage : String := "This condition is not a boolean type."

/-- Diagnostic code `CONDITION_ALWAYS_TRUE`. -/
def conditionAlwaysTrueCode : Nat := 90001

/-- Diagnostic code `CONDITION_ALWAYS_FALSE`. -/
def conditionAlwaysFalseCode : Nat := 90002

/-- `checkConditionExpression`: resolve the condition's type, skip any
and unknown types, classify, and push at most one diagnostic along the
source's if / else-if / else-if chain. -/
def checkConditionExpression (ctx : TypeContext) (expr : ANode) : List ConditionDiagnostic :=
  let type := resolveConditionType ctx expr
  if type.flags.anyF || type.flags.unknownF then []
  else
    let canTruthy := canBeTruthyValue type
    let canFalsy := canBeFalsyValue type
    let isBoolean := isBooleanType type
    if !canTruthy && canFalsy then
      [{ message := alwaysFalseMessage, node := expr, category := .warning,
         code := some conditionAlwaysFalseCode, conditionType := some .alwaysFalse }]
    else if canTruthy && !canFalsy then
      [{ message := alwaysTrueMessage, node := expr, category := .warning,
         code := some conditionAlwaysTrueCode, conditionType := some .alwaysTrue }]
    else if !isBoolean && (canTruthy && canFalsy) then
      [{ message := notBooleanMessage, node := expr, category := .hint,
         code := none, conditionType := none }]
    else []

/-! ## Initialization-order checker

Model of `propertyInitOrderChecker`.  Reference uses live in the same
syntax tree; a use is given as its node plus its ancestor chain
(immediate parent first), which is how the source's `node.parent` walks
are realised.  `findAllReferencesInClass` — the host's
reference-resolution facility plus same-class filtering — is the oracle
`RefEnv.usesOf`, keyed by the identity of the node searched from. -/

/-- A syntax-tree node as seen by the initialization-order checker:
its identity (the JS object identity used as the visited-set key), its
kind, its span, its source text, the identity of its `name` child when
it has one, that name's text, the identity of its distinguished child
(`name` of a property access, `argumentExpression` of an element
access, `expression` of a call, `tag` of a tagged template), whether
its object expression is the `this` keyword, and whether it carries a
parameter-property modifier. -/
structure RNode where
  id : Nat
  kind : SKind
  pos : Nat
  endP : Nat
  text : String
  nameId : Option Nat
  nameText : String
  childRef : Option Nat
  objIsThis : Bool
  hasParamPropModifier : Bool
  deriving DecidableEq, Repr

/-- A reference use: the referencing node and its ancestor chain,
immediate parent first. -/
structure Use where
  node : RNode
  ancestors : List RNode
  deriving DecidableEq, Repr

/-- The kinds that form a `ReferenceContainer`, as enumerated in
`findContainer`'s switch. -/
def isReferenceContainerKind : SKind → Bool
  | .propertyDeclaration => true
  | .methodDeclaration => true
  | .getAccessor => true
  | .setAccessor => true
  | .constructorDeclaration => true
  | .classStaticBlock => true
  | .arrowFunction => true
  | .functionExpression => true
  | .functionDeclaration => true
  | .parameter => true
  | _ => false

/-- `findContainer`: the nearest enclosing node (starting from the node
itself, as `ts.findAncestor` does) whose kind is a reference-container
kind. -/
def findContainer (u : Use) : Option RNode :=
  (u.node :: u.ancestors).find? (fun a => isReferenceContainerKind a.kind)

/-- `requiresInvocation`: methods, function declarations, function
expressions and arrow functions. -/
def requiresInvocation (c : RNode) : Bool :=
  c.kind == .methodDeclaration || c.kind == .functionDeclaration
    || c.kind == .functionExpression || c.kind == .arrowFunction

/-- `isInvocation`: the use (possibly widened one level to an enclosing
property/element access of which it is the name/argument) is the callee
of a call expression or the tag of a tagged template. -/
def isInvocation (u : Use) : Bool :=
  match u.ancestors with
  | [] => false
  | p :: rest =>
    if (p.kind == .propertyAccessExpression && p.childRef == some u.node.id)
        || (p.kind == .elementAccessExpression && p.childRef == some u.node.id) then
      match rest with
      | q :: _ =>
        (q.kind == .callExpression && q.childRef == some p.id)
          || (q.kind == .taggedTemplateExpression && q.childRef == some p.id)
      | [] => false
    else
      (p.kind == .callExpression && p.childRef == some u.node.id)
        || (p.kind == .taggedTemplateExpression && p.childRef == some u.node.id)

/-- `formatUse`: the use's text, prefixed by `this.` when it is the
name of a `this` property access (or wrapped for a `this` element
access), and suffixed by `(...)` when the resulting location is inside
a call expression. -/
def formatUse (u : Use) : String :=
  match u.ancestors with
  | [] => u.node.text
  | p :: rest =>
    if p.kind == .propertyAccessExpression && p.childRef == some u.node.id then
      let text := if p.objIsThis then "this." ++ u.node.text else u.node.text
      match rest with
      | q :: _ => if q.kind == .callExpression then text ++ "(...)" else text
      | [] => text
    else if p.kind == .elementAccessExpression && p.childRef == some u.node.id then
      let text := if p.objIsThis then "this['" ++ u.node.text ++ "']" else u.node.text
      match rest with
      | q :: _ => if q.kind == .callExpression then text ++ "(...)" else text
      | [] => text
    else
      if p.kind == .callExpression then u.node.text ++ "(...)" else u.node.text

/-- `formatStack`: the uses rendered outer-to-inner, joined by arrows. -/
def formatStack (stack : List Use) : String :=
  String.intercalate " -> " (stack.reverse.map formatUse)

/-- An `InvalidUse` yielded by `collectReferences`. -/
structure InvalidUse where
  stack : List Use
  container : RNode
  deriving DecidableEq, Repr

/-- An `InvalidUseDiagnostic` returned by `check`. -/
structure InvalidUseDiagnostic where
  message : String
  node : RNode
  deriving DecidableEq, Repr

/-- The host's reference-resolution facet: for the identity of a node,
the same-class reference uses found when searching from it
(`findAllReferencesInClass`), stored as a finite association list, plus
the identities of all reference containers of the program (the finite
universe the visited set draws from). -/
structure RefEnv where
  usesMap : List (Nat × List Use)
  containerIds : Finset Nat

def RefEnv.usesOf (env : RefEnv) (key : Nat) : List Use :=
  (env.usesMap.lookup key).getD []

/-- The longest use list the host ever returns (used to size the
recursion fuel below). -/
def RefEnv.maxUses (env : RefEnv) : Nat :=
  (env.usesMap.map (fun e => e.2.length)).foldr max 0

/-- The loop's depth adjustment for one use: `if (isInvocation(use) &&
nextRequiresInvocationDepth > 0) nextRequiresInvocationDepth--`. -/
def depthAfterUse (u : Use) (depth : Nat) : Nat :=
  if isInvocation u && decide (0 < depth) then depth - 1 else depth

/-- The loop's yield: an `InvalidUse` when the container is a property
declaration and the adjusted depth is zero. -/
def yieldsFor (c : RNode) (nextStack : List Use) (d1 : Nat) : List InvalidUse :=
  if c.kind == SKind.propertyDeclaration && d1 == 0 then
    [{ stack := nextStack, container := c }]
  else []

/-- The loop's `else if (requiresInvocation(container))
nextRequiresInvocationDepth++`. -/
def depthForContainer (c : RNode) (d1 : Nat) : Nat :=
  if c.kind == SKind.propertyDeclaration && d1 == 0 then d1
  else if requiresInvocation c then d1 + 1 else d1

/-- `collectReferences`, fully evaluated (the caller spreads the
generator into an array).  The JS recursion is unbounded; here a fuel
argument bounds it, one unit per loop step, and the fuel chosen by
`checkParameterPropertyDeclaration` is proved sufficient in the
termination theorem below, so no actual run exhausts it.  The mutable
visited set threads through the calls exactly as the shared `Set`
object does in the source. -/
def collectReferencesGo (env : RefEnv) :
    Nat → List Use → List Use → Nat → Finset Nat → Option (List InvalidUse × Finset Nat)
  | 0, _, _, _, _ => none
  | _ + 1, [], _, _, seen => some ([], seen)
  | fuel + 1, u :: rest, stack, depth, seen =>
    match findContainer u with
    | none => collectReferencesGo env fuel rest stack depth seen
    | some c =>
      if c.id ∈ seen ∨ c.kind = SKind.constructorDeclaration then
        collectReferencesGo env fuel rest stack depth seen
      else
        match collectReferencesGo env fuel (env.usesOf (c.nameId.getD c.id)) (stack ++ [u])
            (depthForContainer c (depthAfterUse u depth)) (insert c.id seen) with
        | none => none
        | some (sub, seen2) =>
          match collectReferencesGo env fuel rest stack depth seen2 with
          | none => none
          | some (tail, seen3) =>
            some (yieldsFor c (stack ++ [u]) (depthAfterUse u depth) ++ (sub ++ tail), seen3)

/-- Fuel that the termination theorem proves sufficient for a search
over this environment. -/
def defaultFuel (env : RefEnv) (uses : List Use) : Nat :=
  uses.length + env.containerIds.card * (env.maxUses + 2) + 1

/-- `checkParameterPropertyDeclaration`: run the reference search from
the parameter property's name node with an empty stack, depth 0 and a
fresh visited set. -/
def checkParameterPropertyDeclaration (env : RefEnv) (paramNameId : Nat) : List InvalidUse :=
  match collectReferencesGo env (defaultFuel env (env.usesOf paramNameId))
      (env.usesOf paramNameId) [] 0 ∅ with
  | some (uses, _) => uses
  | none => []

/-- The checker's view of a source file: the syntax tree walked by
`check`'s `visit`. -/
inductive RTree where
  | node (info : RNode) (children : List RTree)

mutual

/-- `check`'s `visit`: collect, in preorder, every parameter node that
carries a parameter-property modifier and whose parent is a
constructor declaration (`isParameter(node) &&
isParameterPropertyDeclaration(node, node.parent)`). -/
def visitParamProps (parentKind : Option SKind) : RTree → List RNode
  | .node info children =>
    (if info.kind == .parameter && info.hasParamPropModifier
        && parentKind == some .constructorDeclaration then [info] else [])
      ++ visitParamPropsList (some info.kind) children

def visitParamPropsList (parentKind : Option SKind) : List RTree → List RNode
  | [] => []
  | t :: ts => visitParamProps parentKind t ++ visitParamPropsList parentKind ts

end

/-- The anchor node of a diagnostic: `e.stack[0]` (the innermost use;
stacks of emitted diagnostics are never empty). -/
def stackHeadNode (e : InvalidUse) : RNode :=
  match e.stack with
  | u :: _ => u.node
  | [] =>
    { id := 0, kind := .otherKind, pos := 0, endP := 0, text := "", nameId := none,
      nameText := "", childRef := none, objIsThis := false, hasParamPropModifier := false }

/-- `check` of the initialization-order checker: for every parameter
property of the file, every invalid use found by the reference search
becomes one diagnostic. -/
def check (sf : RTree) (env : RefEnv) : List InvalidUseDiagnostic :=
  (visitParamProps none sf).flatMap (fun p =>
    (checkParameterPropertyDeclaration env (p.nameId.getD p.id)).map (fun e =>
      { message := "Parameter property '" ++ p.nameText
          ++ "' is used before its declaration. Usage stack: " ++ formatStack e.stack,
        node := stackHeadNode e }))

/-! ## Navigation redirector

Model of `decorateLanguageService`: the host service's four queries are
oracle functions; the decorations are translated from the source. -/

/-- The `ScriptElementKind` values the decorations inspect. -/
inductive ScriptElementKind where
  | classElement
  | constructorImplementationElement
  | memberVariableElement
  | localVariableElement
  | otherElement
  deriving DecidableEq, Repr

structure TextSpan where
  start : Nat
  length : Nat
  deriving DecidableEq, Repr

structure DefinitionInfo where
  fileName : String
  textSpan : TextSpan
  kind : ScriptElementKind
  name : String
  containerName : String
  deriving DecidableEq, Repr

structure ReferenceEntry where
  fileName : String
  textSpan : TextSpan
  deriving DecidableEq, Repr

structure ReferencedSymbol where
  definition : DefinitionInfo
  references : List ReferenceEntry
  deriving DecidableEq, Repr

structure DefinitionInfoAndBoundSpan where
  definitions : Option (List DefinitionInfo)
  textSpan : TextSpan
  deriving DecidableEq, Repr

inductive DiagnosticCategory where
  | warning
  | error
  | suggestion
  | message
  deriving DecidableEq, Repr

structure TsDiagnostic where
  category : DiagnosticCategory
  code : Nat
  fileName : String
  messageText : String
  start : Nat
  length : Nat
  deriving DecidableEq, Repr

/-- A host source file as the decorations see it: one object with a
syntax-tree facet (used by the navigation code) and the
initialization-order checker's view of the same tree. -/
structure SourceFileData where
  tree : ANode
  initTree : RTree

/-- The host `Program`: source-file lookup plus its
reference-resolution facet. -/
structure Program where
  getSourceFile : String → Option SourceFileData
  refEnv : RefEnv

/-- The wrapped host `LanguageService` (baseline queries). -/
structure LanguageService where
  getSemanticDiagnostics : String → List TsDiagnostic
  getDefinitionAndBoundSpan : String → Nat → Option DefinitionInfoAndBoundSpan
  getDefinitionAtPosition : String → Nat → Option (List DefinitionInfo)
  findReferences : String → Nat → Option (List ReferencedSymbol)
  getProgram : Option Program

/-- `shouldIgnoreFirst`: exactly two entries, same file, first a class
element, second a constructor implementation whose container name
equals the first entry's name. -/
def shouldIgnoreFirst (info : List DefinitionInfo) : Bool :=
  match info with
  | [first, second] =>
    if first.fileName != second.fileName then false
    else if first.kind != ScriptElementKind.classElement then false
    else if second.kind != ScriptElementKind.constructorImplementationElement then false
    else if first.name != second.containerName then false
    else true
  | _ => false

/-- `ts.isExpression` restricted to the kinds of this model. -/
def isExpressionKind : SKind → Bool
  | .identifier => true
  | .thisKeyword => true
  | .propertyAccessExpression => true
  | .elementAccessExpression => true
  | .callExpression => true
  | .taggedTemplateExpression => true
  | .binaryExpression => true
  | .conditionalExpression => true
  | .arrowFunction => true
  | .functionExpression => true
  | .literalKind => true
  | _ => false

/-- `isChildOfFunctionInvocationButNotPropertyAccess`, walking the
node's ancestor chain (immediate parent first): stop with `false` at
the first non-expression, `true` at a call expression, `false` at a
property access. -/
def isChildOfFunctionInvocationButNotPropertyAccess : List ANode → Bool
  | [] => false
  | parent :: rest =>
    if !isExpressionKind (kindOf parent) then false
    else if kindOf parent = SKind.callExpression then true
    else if kindOf parent = SKind.propertyAccessExpression then false
    else isChildOfFunctionInvocationButNotPropertyAccess rest

/-- Text of a name token (`getText()` of an identifier; the model
returns the stored text for leaf tokens). -/
def nodeTextOf : ANode → String
  | .ident _ _ _ t => t
  | .lit _ _ _ t => t
  | _ => ""

/-- `node.type` of a property declaration. -/
def propDeclTypeAnn : ANode → Option ANode
  | .propertyDecl _ _ _ _ _ tyAnn _ => tyAnn
  | _ => none

/-- `node.name` of a property declaration. -/
def propDeclNameTok : ANode → Option ANode
  | .propertyDecl _ _ _ _ nameTok _ _ => some nameTok
  | _ => none

/-- `classDecl.members`. -/
def classMembers : ANode → List ANode
  | .classDecl _ _ _ _ members => members
  | _ => []

/-- `constructor.body`. -/
def ctorBody : ANode → Option ANode
  | .ctorDecl _ _ _ _ _ body => body
  | _ => none

/-- `block.statements`. -/
def blockStatements : ANode → List ANode
  | .blockNode _ _ _ stmts => stmts
  | _ => []

/-- `propertyAccess.name`. -/
def propAccessNameTok : ANode → Option ANode
  | .propAccess _ _ _ _ nameTok => some nameTok
  | _ => none

/-- The loop body of `findFirstTopLevelPropertyAssignment`: the first
statement of the list that is an expression statement whose expression
is a binary assignment (`=`) with a `this.<name>` left-hand side whose
name text matches, returning that left-hand property access. -/
def findFirstTopLevelPropertyAssignmentList (propertyName : String) :
    List ANode → Option ANode
  | [] => none
  | stmt :: rest =>
    match stmt with
    | .exprStmt _ _ _ e =>
      match e with
      | .binary _ _ _ lhs op _ =>
        if kindOf op = SKind.equalsToken then
          match lhs with
          | .propAccess p s en obj nameTok =>
            if kindOf obj = SKind.thisKeyword ∧ nodeTextOf nameTok = propertyName then
              some (.propAccess p s en obj nameTok)
            else findFirstTopLevelPropertyAssignmentList propertyName rest
          | _ => findFirstTopLevelPropertyAssignmentList propertyName rest
        else findFirstTopLevelPropertyAssignmentList propertyName rest
      | _ => findFirstTopLevelPropertyAssignmentList propertyName rest
    | _ => findFirstTopLevelPropertyAssignmentList propertyName rest

/-- `findFirstTopLevelPropertyAssignment`: scans only the top-level
statements of the constructor body (never inside nested blocks). -/
def findFirstTopLevelPropertyAssignment (block : ANode) (propertyName : String) :
    Option ANode :=
  findFirstTopLevelPropertyAssignmentList propertyName (blockStatements block)

/-- The upward `while (currentNode && !isPropertyDeclaration(...))`
walk: the input is the reversed descent path (found node first, file
root last); the result is the first property declaration together with
its parent. -/
def upToPropertyDecl : List ANode → Option (ANode × Option ANode)
  | [] => none
  | x :: rest =>
    if kindOf x = SKind.propertyDeclaration then some (x, rest.head?)
    else upToPropertyDecl rest

/-- `tryRedirectUntypedFieldToConstructorAssignment`: every lookup that
fails returns `none` (fall back to the baseline). -/
def tryRedirectUntypedFieldToConstructorAssignment (svc : LanguageService)
    (fileName : String) (position : Nat)
    (originalResult : Option (List DefinitionInfo)) : Option (List DefinitionInfo) :=
  match originalResult with
  | none => none
  | some [] => none
  | some (definitionInfo :: _) =>
    match svc.getProgram with
    | none => none
    | some program =>
      match program.getSourceFile fileName with
      | none => none
      | some sourceFile =>
        match findLeafNodeAtPosition sourceFile.tree position with
        | none => none
        | some _ =>
          if definitionInfo.kind ≠ ScriptElementKind.memberVariableElement then none
          else
            match program.getSourceFile definitionInfo.fileName with
            | none => none
            | some defSourceFile =>
              match findNodePath defSourceFile.tree definitionInfo.textSpan.start with
              | none => none
              | some path =>
                match upToPropertyDecl path.reverse with
                | none => none
                | some (finalPropertyDecl, parentOpt) =>
                  if (propDeclTypeAnn finalPropertyDecl).isSome then none
                  else
                    match parentOpt with
                    | none => none
                    | some classDecl =>
                      if kindOf classDecl ≠ SKind.classDeclaration then none
                      else
                        match (classMembers classDecl).find?
                            (fun m => kindOf m == SKind.constructorDeclaration) with
                        | none => none
                        | some ctor =>
                          match ctorBody ctor with
                          | none => none
                          | some body =>
                            match propDeclNameTok finalPropertyDecl with
                            | none => none
                            | some nameTok =>
                              let propertyName := nodeTextOf nameTok
                              if propertyName = "" then none
                              else
                                match findFirstTopLevelPropertyAssignment body propertyName with
                                | none => none
                                | some firstAssignment =>
                                  match propAccessNameTok firstAssignment with
                                  | none => none
                                  | some assignNameTok =>
                                    some [{ definitionInfo with
                                      textSpan :=
                                        { start := nodeStart assignNameTok,
                                          length := nodeEnd assignNameTok - nodeStart assignNameTok },
                                      name := propertyName,
                                      kind := ScriptElementKind.localVariableElement }]

/-- The decorated `getSemanticDiagnostics`: the host's diagnostics with
the initialization-order checker's diagnostics appended, each as a
warning with code 0, the original message text and the node's span. -/
def decorateGetSemanticDiagnostics (svc : LanguageService) (fileName : String) :
    List TsDiagnostic :=
  let result := svc.getSemanticDiagnostics fileName
  match svc.getProgram with
  | none => result
  | some program =>
    match program.getSourceFile fileName with
    | none => result
    | some sf =>
      result ++ (check sf.initTree program.refEnv).map (fun e =>
        { category := .warning, code := 0, fileName := fileName,
          messageText := e.message, start := e.node.pos,
          length := e.node.endP - e.node.pos })

/-- The decorated `getDefinitionAndBoundSpan`: duplicate-definition
collapse only. -/
def decorateGetDefinitionAndBoundSpan (svc : LanguageService)
    (fileName : String) (position : Nat) : Option DefinitionInfoAndBoundSpan :=
  match svc.getDefinitionAndBoundSpan fileName position with
  | none => none
  | some result =>
    match result.definitions with
    | some defs =>
      if shouldIgnoreFirst defs then some { result with definitions := some (defs.drop 1) }
      else some result
    | none => some result

/-- The decorated `getDefinitionAtPosition`: untyped-field redirection
first, then duplicate-definition collapse. -/
def decorateGetDefinitionAtPosition (svc : LanguageService)
    (fileName : String) (position : Nat) : Option (List DefinitionInfo) :=
  let result := svc.getDefinitionAtPosition fileName position
  match tryRedirectUntypedFieldToConstructorAssignment svc fileName position result with
  | some redirectedResult => some redirectedResult
  | none =>
    match result with
    | some defs => if shouldIgnoreFirst defs then some (defs.drop 1) else some defs
    | none => none

/-- The decorated `findReferences`: when the queried token is a
constructor keyword and the first baseline group's definition is a
class element, append to that group every class reference whose token
at `start + 1` sits under a call expression without an intervening
property access. -/
def decorateFindReferences (svc : LanguageService) (fileName : String) (position : Nat) :
    Option (List ReferencedSymbol) :=
  let result := svc.findReferences fileName position
  match svc.getProgram.bind (fun p => p.getSourceFile fileName) with
  | none => result
  | some sf =>
    match findLeafNodeAtPosition sf.tree position with
    | none => result
    | some n =>
      if kindOf n ≠ SKind.constructorKeyword then result
      else
        match result with
        | none => none
        | some [] => some []
        | some (g0 :: gs) =>
          if g0.definition.kind ≠ ScriptElementKind.classElement then some (g0 :: gs)
          else
            let classReferences :=
              svc.findReferences g0.definition.fileName g0.definition.textSpan.start
            let extras := (classReferences.getD []).flatMap (fun rr =>
              rr.references.filter (fun r =>
                match svc.getProgram.bind (fun p => p.getSourceFile r.fileName) with
                | none => false
                | some sfr =>
                  let path := findLeafPath sfr.tree (r.textSpan.start + 1)
                  isChildOfFunctionInvocationButNotPropertyAccess path.dropLast.reverse))
            some ({ g0 with references := g0.references ++ extras } :: gs)

/-! ## Theorems -/

theorem findLeafNodeAtPosition_exists (sf : ANode) (p : Nat) :
    ∃ n, findLeafNodeAtPosition sf p = some n := by
  unfold findLeafNodeAtPosition findLeafPath
  have h : (sf :: findLeafDescend p sf) ≠ [] := by simp
  exact ⟨_, List.getLast?_eq_getLast _ h⟩

/-- C10: `findLeafNodeAtPosition` returns a defined node for every
source file and position: the mutable `node` variable starts at the
source file itself and is only ever reassigned to a child whose
`[pos, end]` span contains the position, so the function never returns
`undefined` — the undefined-node guard in the decorated
`findReferences` is unreachable. -/
theorem findLeafNodeAtPosition_always_defined :
    ∀ (sf : ANode) (p : Nat), ∃ n, findLeafNodeAtPosition sf p = some n :=
  fun sf p => findLeafNodeAtPosition_exists sf p

/-- C7: for every condition expression whose resolved type (after the
declared-type substitution for bare identifiers) carries the `Any` or
`Unknown` flag, `checkConditionExpression` emits no diagnostic. -/
theorem checkConditionExpression_skips_any_unknown :
    ∀ (ctx : TypeContext) (expr : ANode),
      (resolveConditionType ctx expr).flags.anyF = true ∨
        (resolveConditionType ctx expr).flags.unknownF = true →
      checkConditionExpression ctx expr = [] := by
  intro ctx expr h
  unfold checkConditionExpression
  rcases h with h | h <;> simp [h]

def tyUnknownW : Ty :=
  Ty.mk
    { boolLit := false
      intrinsicName := none
      boolean := false
      undefF := false
      nullF := false
      voidF := false
      stringLit := false
      strVal := ""
      numberLit := false
      numVal := 0
      stringF := false
      numberF := false
      objectF := false
      nonPrimitive := false
      unionF := false
      anyF := false
      unknownF := true } []

def tyStringW : Ty :=
  Ty.mk
    { boolLit := false
      intrinsicName := none
      boolean := false
      undefF := false
      nullF := false
      voidF := false
      stringLit := false
      strVal := ""
      numberLit := false
      numVal := 0
      stringF := true
      numberF := false
      objectF := false
      nonPrimitive := false
      unionF := false
      anyF := false
      unknownF := false } []

/-- A context in which the narrowed type of every expression is
`string`, but the identifier's declaration carries an explicit
`unknown` type annotation, so the declared-type substitution yields the
unknown type. -/
def ctxUnknownW : TypeContext :=
  { typeAt := fun _ => tyStringW,
    symbolDecls := fun _ =>
      [{ isVariableDecl := true, isParam := false,
         typeAnn := some { fromTypeNode := tyUnknownW, isTypeReference := false,
                           aliasExpandedType := none } }] }

def exprIdentW : ANode := ANode.ident 0 0 1 "x"

theorem checkConditionExpression_skips_any_unknown_witness :
    ((resolveConditionType ctxUnknownW exprIdentW).flags.unknownF = true) ∧
      checkConditionExpression ctxUnknownW exprIdentW = [] :=
  ⟨rfl, checkConditionExpression_skips_any_unknown ctxUnknownW exprIdentW (Or.inr rfl)⟩

/-- C1: for a condition whose resolved type is neither `Any` nor
`Unknown`, `checkConditionExpression` follows the decision table: one
always-false warning when not truthy and falsy; one always-true warning
when truthy and not falsy; one not-a-boolean hint when truthy, falsy
and not boolean; nothing for a two-valued boolean; never more than one
diagnostic, always anchored at the condition's node. -/
theorem checkConditionExpression_decision_table :
    ∀ (ctx : TypeContext) (expr : ANode),
      (resolveConditionType ctx expr).flags.anyF = false →
      (resolveConditionType ctx expr).flags.unknownF = false →
      (canBeTruthyValue (resolveConditionType ctx expr) = false →
        canBeFalsyValue (resolveConditionType ctx expr) = true →
        checkConditionExpression ctx expr =
          [{ message := alwaysFalseMessage, node := expr, category := .warning,
             code := some conditionAlwaysFalseCode, conditionType := some .alwaysFalse }]) ∧
      (canBeTruthyValue (resolveConditionType ctx expr) = true →
        canBeFalsyValue (resolveConditionType ctx expr) = false →
        checkConditionExpression ctx expr =
          [{ message := alwaysTrueMessage, node := expr, category := .warning,
             code := some conditionAlwaysTrueCode, conditionType := some .alwaysTrue }]) ∧
      (canBeTruthyValue (resolveConditionType ctx expr) = true →
        canBeFalsyValue (resolveConditionType ctx expr) = true →
        isBooleanType (resolveConditionType ctx expr) = false →
        checkConditionExpression ctx expr =
          [{ message := notBooleanMessage, node := expr, category := .hint,
             code := none, conditionType := none }]) ∧
      (canBeTruthyValue (resolveConditionType ctx expr) = true →
        canBeFalsyValue (resolveConditionType ctx expr) = true →
        isBooleanType (resolveConditionType ctx expr) = true →
        checkConditionExpression ctx expr = []) ∧
      (checkConditionExpression ctx expr).length ≤ 1 ∧
      (∀ d ∈ checkConditionExpression ctx expr, d.node = expr) := by
  intro ctx expr hAny hUnk
  unfold checkConditionExpression
  simp only [hAny, hUnk, Bool.or_self, Bool.false_eq_true, if_false]
  cases hT : canBeTruthyValue (resolveConditionType ctx expr) <;>
    cases hF : canBeFalsyValue (resolveConditionType ctx expr) <;>
      cases hB : isBooleanType (resolveConditionType ctx expr) <;>
        simp

def tyBooleanW : Ty :=
  Ty.mk
    { boolLit := false
      intrinsicName := none
      boolean := true
      undefF := false
      nullF := false
      voidF := false
      stringLit := false
      strVal := ""
      numberLit := false
      numVal := 0
      stringF := false
      numberF := false
      objectF := false
      nonPrimitive := false
      unionF := false
      anyF := false
      unknownF := false } []

def ctxBooleanW : TypeContext :=
  { typeAt := fun _ => tyBooleanW, symbolDecls := fun _ => [] }

theorem checkConditionExpression_decision_table_witness :
    checkConditionExpression ctxBooleanW exprIdentW = [] := by
  have h := checkConditionExpression_decision_table ctxBooleanW exprIdentW rfl rfl
  exact h.2.2.2.1 rfl rfl rfl

/-- C6 helper: a baseline whose first entry is not a class element is
never collapsed. -/
theorem shouldIgnoreFirst_false_of_first_kind {d0 : DefinitionInfo}
    (rest : List DefinitionInfo) (h : d0.kind ≠ ScriptElementKind.classElement) :
    shouldIgnoreFirst (d0 :: rest) = false := by
  match rest with
  | [] => rfl
  | [b] =>
    simp only [shouldIgnoreFirst]
    have hb : (d0.kind != ScriptElementKind.classElement) = true := by
      simpa using h
    by_cases hf : (d0.fileName != b.fileName) = true
    · simp [hf]
    · simp only [Bool.not_eq_true] at hf
      simp [hf, hb]
  | b :: c :: r => rfl

/-- C6: the duplicate-definition collapse drops the first baseline
entry exactly when the baseline has two entries in the same file, the
first a class element and the second a constructor implementation whose
container name equals the first entry's name; in every other case the
collapse step leaves the baseline untouched, in both definition
queries. -/
theorem definition_collapse_characterization :
    (∀ a b : DefinitionInfo,
      shouldIgnoreFirst [a, b] = true ↔
        (a.fileName = b.fileName ∧ a.kind = ScriptElementKind.classElement ∧
          b.kind = ScriptElementKind.constructorImplementationElement ∧
          a.name = b.containerName)) ∧
    (∀ info : List DefinitionInfo, info.length ≠ 2 → shouldIgnoreFirst info = false) ∧
    (∀ (svc : LanguageService) (fileName : String) (position : Nat)
        (r : DefinitionInfoAndBoundSpan) (defs : List DefinitionInfo),
      svc.getDefinitionAndBoundSpan fileName position = some r →
      r.definitions = some defs →
      decorateGetDefinitionAndBoundSpan svc fileName position =
        some { r with definitions := some (if shouldIgnoreFirst defs then defs.drop 1 else defs) }) ∧
    (∀ (svc : LanguageService) (fileName : String) (position : Nat)
        (defs : List DefinitionInfo),
      svc.getDefinitionAtPosition fileName position = some defs →
      tryRedirectUntypedFieldToConstructorAssignment svc fileName position (some defs) = none →
      decorateGetDefinitionAtPosition svc fileName position =
        some (if shouldIgnoreFirst defs then defs.drop 1 else defs)) := by
  refine ⟨?_, ?_, ?_, ?_⟩
  · intro a b
    simp only [shouldIgnoreFirst]
    constructor
    · intro h
      by_cases h1 : (a.fileName != b.fileName) = true
      · simp [h1] at h
      · by_cases h2 : (a.kind != ScriptElementKind.classElement) = true
        · simp only [Bool.not_eq_true] at h1
          simp [h1, h2] at h
        · by_cases h3 : (b.kind != ScriptElementKind.constructorImplementationElement) = true
          · simp only [Bool.not_eq_true] at h1 h2
            simp [h1, h2, h3] at h
          · by_cases h4 : (a.name != b.containerName) = true
            · simp only [Bool.not_eq_true] at h1 h2 h3
              simp [h1, h2, h3, h4] at h
            · simp only [bne_eq_false_iff_eq] at *
              simp only [Bool.not_eq_true, bne_eq_false_iff_eq] at h1 h2 h3 h4
              exact ⟨h1, h2, h3, h4⟩
    · rintro ⟨h1, h2, h3, h4⟩
      simp [h1, h2, h3, h4]
  · intro info h
    match info with
    | [] => rfl
    | [a] => rfl
    | [a, b] => exact absurd rfl h
    | a :: b :: c :: r => rfl
  · intro svc fileName position r defs h1 h2
    obtain ⟨rdefs, rspan⟩ := r
    simp only at h2
    subst h2
    simp only [decorateGetDefinitionAndBoundSpan, h1]
    by_cases hc : shouldIgnoreFirst defs = true
    · simp [hc]
    · simp only [Bool.not_eq_true] at hc
      simp [hc]
  · intro svc fileName position defs h1 h2
    simp only [decorateGetDefinitionAtPosition, h1, h2]
    by_cases hc : shouldIgnoreFirst defs = true
    · simp [hc]
    · simp only [Bool.not_eq_true] at hc
      simp [hc]

def classDefW : DefinitionInfo :=
  { fileName := "main.ts", textSpan := { start := 4, length := 4 },
    kind := ScriptElementKind.classElement, name := "Test", containerName := "" }

def ctorDefW : DefinitionInfo :=
  { fileName := "main.ts", textSpan := { start := 20, length := 40 },
    kind := ScriptElementKind.constructorImplementationElement, name := "constructor",
    containerName := "Test" }

/-- A host whose definition query returns the class/constructor pair
(and that has no program, so the untyped-field redirection falls
through). -/
def svcCollapseW : LanguageService :=
  { getSemanticDiagnostics := fun _ => [],
    getDefinitionAndBoundSpan := fun _ _ =>
      some { definitions := some [classDefW, ctorDefW], textSpan := { start := 60, length := 4 } },
    getDefinitionAtPosition := fun _ _ => some [classDefW, ctorDefW],
    findReferences := fun _ _ => none,
    getProgram := none }

theorem definition_collapse_characterization_witness :
    decorateGetDefinitionAtPosition svcCollapseW "main.ts" 60 = some [ctorDefW] ∧
      shouldIgnoreFirst [classDefW, ctorDefW] = true := by
  have h := definition_collapse_characterization
  have h4 := h.2.2.2 svcCollapseW "main.ts" 60 [classDefW, ctorDefW] rfl rfl
  have hs : shouldIgnoreFirst [classDefW, ctorDefW] = true :=
    (h.1 classDefW ctorDefW).mpr ⟨rfl, rfl, rfl, rfl⟩
  rw [h4, hs]
  exact ⟨rfl, hs⟩

/-- Claim-side reading of `isBooleanType` (spec wording): the general
boolean flag, or a union with exactly one true-literal constituent,
exactly one false-literal constituent and zero other constituents. -/
def boolSpecIsBooleanType (t : Ty) : Bool :=
  t.flags.boolean ||
    (t.flags.unionF
      && (t.constituents.countP (fun c => getBooleanLiteralIntrinsicName c == some true) == 1)
      && (t.constituents.countP (fun c => getBooleanLiteralIntrinsicName c == some false) == 1)
      && (t.constituents.countP (fun c => getBooleanLiteralIntrinsicName c == none) == 0))

/-- C8: on types whose union constituents contain at most one true
literal and at most one false literal (the host interns its two boolean
literal types, so a constituent list never repeats them),
`isBooleanType` holds exactly when the type has the general boolean
flag or is a union of exactly one true literal and one false literal
and nothing else. -/
theorem isBooleanType_characterization :
    ∀ t : Ty,
      t.constituents.countP (fun c => getBooleanLiteralIntrinsicName c == some true) ≤ 1 →
      t.constituents.countP (fun c => getBooleanLiteralIntrinsicName c == some false) ≤ 1 →
      (isBooleanType t = true ↔ boolSpecIsBooleanType t = true) := by
  intro t hT hF
  unfold isBooleanType boolSpecIsBooleanType
  by_cases hb : t.flags.boolean = true
  · simp [hb]
  · simp only [Bool.not_eq_true] at hb
    by_cases hu : t.flags.unionF = true
    · have hTrue : (t.constituents.any fun c => getBooleanLiteralIntrinsicName c == some true) = true ↔
          0 < t.constituents.countP (fun c => getBooleanLiteralIntrinsicName c == some true) := by
        rw [List.countP_pos_iff, List.any_eq_true]
      have hFalse : (t.constituents.any fun c => getBooleanLiteralIntrinsicName c == some false) = true ↔
          0 < t.constituents.countP (fun c => getBooleanLiteralIntrinsicName c == some false) := by
        rw [List.countP_pos_iff, List.any_eq_true]
      have hOther : (t.constituents.any fun c => getBooleanLiteralIntrinsicName c == none) = false ↔
          t.constituents.countP (fun c => getBooleanLiteralIntrinsicName c == none) = 0 := by
        rw [List.countP_eq_zero, List.any_eq_false]
      simp only [hb, hu, if_true, Bool.false_eq_true, if_false, Bool.false_or,
        Bool.true_and, Bool.and_eq_true, Bool.not_eq_true', beq_iff_eq]
      constructor
      · rintro ⟨⟨h1, h2⟩, h3⟩
        have c1 := hTrue.mp h1
        have c2 := hFalse.mp h2
        have c3 := hOther.mp h3
        exact ⟨⟨by omega, by omega⟩, by omega⟩
      · rintro ⟨⟨h1, h2⟩, h3⟩
        exact ⟨⟨hTrue.mpr (by omega), hFalse.mpr (by omega)⟩, hOther.mpr h3⟩
    · simp only [Bool.not_eq_true] at hu
      simp [hb, hu]

def tyTrueLitW : Ty :=
  Ty.mk
    { boolLit := true
      intrinsicName := some true
      boolean := false
      undefF := false
      nullF := false
      voidF := false
      stringLit := false
      strVal := ""
      numberLit := false
      numVal := 0
      stringF := false
      numberF := false
      objectF := false
      nonPrimitive := false
      unionF := false
      anyF := false
      unknownF := false } []

def tyFalseLitW : Ty :=
  Ty.mk
    { boolLit := true
      intrinsicName := some false
      boolean := false
      undefF := false
      nullF := false
      voidF := false
      stringLit := false
      strVal := ""
      numberLit := false
      numVal := 0
      stringF := false
      numberF := false
      objectF := false
      nonPrimitive := false
      unionF := false
      anyF := false
      unknownF := false } []

/-- The reconstructed two-valued boolean: the union of the true literal
and the false literal. -/
def tyBoolUnionW : Ty :=
  Ty.mk
    { boolLit := false
      intrinsicName := none
      boolean := false
      undefF := false
      nullF := false
      voidF := false
      stringLit := false
      strVal := ""
      numberLit := false
      numVal := 0
      stringF := false
      numberF := false
      objectF := false
      nonPrimitive := false
      unionF := true
      anyF := false
      unknownF := false } [tyTrueLitW, tyFalseLitW]

theorem isBooleanType_characterization_witness :
    isBooleanType tyBoolUnionW = true ∧ boolSpecIsBooleanType tyBoolUnionW = true := by
  have h := isBooleanType_characterization tyBoolUnionW (by decide) (by decide)
  exact ⟨h.mpr (by decide), by decide⟩

/-! ### C3: the decorated diagnostics query -/

def tyTrueLitC3 : Ty := tyTrueLitW

/-- The condition of the file below (`if (true) { }`). -/
def exprTrueC3 : ANode := ANode.lit 4 4 8 "true"

/-- Navigation facet of a file whose single statement is
`if (true) { }`. -/
def treeC3 : ANode :=
  ANode.sourceFile 0 0 30 [ANode.ifStmt 0 0 20 exprTrueC3 (ANode.blockNode 10 10 20 [])]

def rnodeBase : RNode :=
  { id := 0, kind := .otherKind, pos := 0, endP := 0, text := "", nameId := none,
    nameText := "", childRef := none, objIsThis := false, hasParamPropModifier := false }

/-- Initialization-order facet of the same file: no parameter
properties anywhere. -/
def initTreeC3 : RTree :=
  RTree.node { rnodeBase with kind := .sourceFileKind, endP := 30 } []

def progC3 : Program :=
  { getSourceFile := fun _ => some { tree := treeC3, initTree := initTreeC3 },
    refEnv := { usesMap := [], containerIds := ∅ } }

def baselineDiagC3 : TsDiagnostic :=
  { category := .error, code := 2345, fileName := "main.ts",
    messageText := "unrelated host diagnostic", start := 0, length := 1 }

def svcC3 : LanguageService :=
  { getSemanticDiagnostics := fun _ => [baselineDiagC3],
    getDefinitionAndBoundSpan := fun _ _ => none,
    getDefinitionAtPosition := fun _ _ => none,
    findReferences := fun _ _ => none,
    getProgram := some progC3 }

/-- Type context of the same file: the condition's type is the `true`
literal type. -/
def ctxC3 : TypeContext :=
  { typeAt := fun _ => tyTrueLitC3, symbolDecls := fun _ => [] }

/-- C3 (failing input): the decorated `getSemanticDiagnostics` appends
only the initialization-order checker's diagnostics to the baseline —
it never invokes the condition checker.  On a file containing
`if (true) { }` the condition checker produces an always-true warning,
yet the decorated diagnostics contain no such message (the repository's
own condition-checker tests expect it there). -/
theorem getSemanticDiagnostics_missing_condition_diagnostics :
    decorateGetSemanticDiagnostics svcC3 "main.ts" = svcC3.getSemanticDiagnostics "main.ts" ∧
    checkConditionExpression ctxC3 exprTrueC3 =
      [{ message := alwaysTrueMessage, node := exprTrueC3, category := .warning,
         code := some conditionAlwaysTrueCode, conditionType := some .alwaysTrue }] ∧
    (decorateGetSemanticDiagnostics svcC3 "main.ts").filter
        (fun d => d.messageText == alwaysTrueMessage) = [] :=
  ⟨rfl, rfl, rfl⟩

/-! ### C2: the eager-arrow scenario of the initialization-order
checker

Reference environment for

  class Test {
    public readonly bar = (() => { return this.foo; })();
    constructor(public readonly foo: string) { }
  }

and its non-invoked variant `public readonly bar = () => this.foo;`. -/

def rnParamFoo : RNode :=
  { rnodeBase with
      id := 2
      kind := .parameter
      nameId := some 1
      nameText := "foo"
      hasParamPropModifier := true }

def rnFooUse : RNode :=
  { rnodeBase with id := 3, kind := .identifier, text := "foo", pos := 50, endP := 53 }

def rnPaFoo : RNode :=
  { rnodeBase with
      id := 4
      kind := .propertyAccessExpression
      childRef := some 3
      objIsThis := true }

def rnRet : RNode := { rnodeBase with id := 5, kind := .returnStatement }

def rnBlk : RNode := { rnodeBase with id := 6, kind := .blockKind }

def rnArrow : RNode := { rnodeBase with id := 7, kind := .arrowFunction }

def rnParen : RNode := { rnodeBase with id := 8 }

def rnCallIife : RNode :=
  { rnodeBase with id := 9, kind := .callExpression, childRef := some 8 }

def rnBarProp : RNode :=
  { rnodeBase with
      id := 10
      kind := .propertyDeclaration
      nameId := some 11
      nameText := "bar" }

def rnClassC2 : RNode := { rnodeBase with id := 12, kind := .classDeclaration }

def rnCtorC2 : RNode := { rnodeBase with id := 13, kind := .constructorDeclaration }

/-- The read of `foo` inside the immediately-invoked arrow: its
containers are the arrow, the parenthesized call, and the `bar` field
declaration. -/
def useFooEager : Use :=
  { node := rnFooUse,
    ancestors := [rnPaFoo, rnRet, rnBlk, rnArrow, rnParen, rnCallIife, rnBarProp, rnClassC2] }

/-- The same read when the arrow is stored but never invoked. -/
def useFooStored : Use :=
  { node := rnFooUse, ancestors := [rnPaFoo, rnArrow, rnBarProp, rnClassC2] }

def envEagerC2 : RefEnv :=
  { usesMap := [(1, [useFooEager])], containerIds := {7, 10, 13} }

def envStoredC2 : RefEnv :=
  { usesMap := [(1, [useFooStored])], containerIds := {7, 10, 13} }

/-- The class tree: field `bar`, then a constructor with parameter
property `foo`. -/
def initTreeC2 : RTree :=
  RTree.node { rnodeBase with id := 20, kind := .sourceFileKind }
    [RTree.node rnClassC2
      [RTree.node rnBarProp [],
       RTree.node rnCtorC2 [RTree.node rnParamFoo []]]]

/-- C2 counterexample: in the eager-invocation case
(`public readonly bar = (() => this.foo)()`), the checker emits no
diagnostic — the claim asserts one is emitted.  The read's reference
container is the anonymous arrow function, the search continues from
the arrow itself, and the host finds no references to it.  The
repository's own test records the same empty diagnostic list. -/
theorem initOrder_eager_arrow_not_flagged :
    check initTreeC2 envEagerC2 = [] := by decide

/-- C2 amended: neither the eagerly-invoked arrow nor the stored arrow
produces a diagnostic.  In general, whenever a use's reference
container is an invocation-requiring container (such as an anonymous
arrow function) from which the reference search finds no further uses,
the search contributes nothing beyond marking the container visited. -/
theorem initOrder_arrow_cases_not_flagged :
    (∀ (env : RefEnv) (u : Use) (c : RNode) (fuel : Nat) (stack : List Use) (depth : Nat)
        (seen : Finset Nat),
      findContainer u = some c →
      requiresInvocation c = true →
      env.usesOf (c.nameId.getD c.id) = [] →
      c.id ∉ seen →
      2 ≤ fuel →
      collectReferencesGo env fuel [u] stack depth seen = some ([], insert c.id seen)) ∧
    check initTreeC2 envEagerC2 = [] ∧
    check initTreeC2 envStoredC2 = [] := by
  refine ⟨?_, by decide, by decide⟩
  intro env u c fuel stack depth seen hcont hreq huses hnot hfuel
  obtain ⟨f, rfl⟩ : ∃ f, fuel = f + 1 + 1 := ⟨fuel - 2, by omega⟩
  have hkinds : c.kind = SKind.methodDeclaration ∨ c.kind = SKind.functionDeclaration
      ∨ c.kind = SKind.functionExpression ∨ c.kind = SKind.arrowFunction := by
    simp only [requiresInvocation, Bool.or_eq_true, beq_iff_eq] at hreq
    tauto
  have hnotctor : ¬(c.id ∈ seen ∨ c.kind = SKind.constructorDeclaration) := by
    rintro (h | h)
    · exact hnot h
    · rcases hkinds with hk | hk | hk | hk <;> rw [hk] at h <;> cases h
  have hnotprop : (c.kind == SKind.propertyDeclaration) = false := by
    rcases hkinds with hk | hk | hk | hk <;> rw [hk] <;> rfl
  simp only [collectReferencesGo, hcont, hnotctor, if_false, huses, yieldsFor, hnotprop,
    Bool.false_and, Bool.false_eq_true, List.append_nil, List.nil_append]

/-- Sanity check mirroring the repository's first
initialization-order test: a method that reads the parameter property,
invoked from a field initializer, is flagged with the recorded message
and is anchored at the inner `foo` read. -/
def rnMethodTest : RNode :=
  { rnodeBase with
      id := 30
      kind := .methodDeclaration
      nameId := some 31
      nameText := "test" }

def rnTestUse : RNode :=
  { rnodeBase with id := 32, kind := .identifier, text := "test" }

def rnPaTest : RNode :=
  { rnodeBase with
      id := 33
      kind := .propertyAccessExpression
      childRef := some 32
      objIsThis := true }

def rnCallTest : RNode :=
  { rnodeBase with id := 34, kind := .callExpression, childRef := some 33 }

def useFooInMethod : Use :=
  { node := rnFooUse, ancestors := [rnPaFoo, rnRet, rnBlk, rnMethodTest, rnClassC2] }

def useTestInBar : Use :=
  { node := rnTestUse, ancestors := [rnPaTest, rnCallTest, rnBarProp, rnClassC2] }

def envMethodC2 : RefEnv :=
  { usesMap := [(1, [useFooInMethod]), (31, [useTestInBar])],
    containerIds := {30, 10, 13} }

theorem check_method_invocation_flagged :
    check initTreeC2 envMethodC2 =
      [{ message := "Parameter property 'foo' is used before its declaration." ++
          " Usage stack: this.test(...) -> this.foo",
         node := rnFooUse }] := by decide

/-! ### C9: termination of the reference-graph search -/

/-- Containment well-formedness of a use list: every container found
for one of its uses is in the program's container universe. -/
def UsesOk (env : RefEnv) (uses : List Use) : Prop :=
  ∀ u ∈ uses, ∀ c, findContainer u = some c → c.id ∈ env.containerIds

/-- Host well-formedness: every reference query returns uses whose
containers lie in the program's container universe. -/
def RefEnvWF (env : RefEnv) : Prop :=
  ∀ key, UsesOk env (env.usesOf key)

theorem usesOf_length_le_maxUses (env : RefEnv) (key : Nat) :
    (env.usesOf key).length ≤ env.maxUses := by
  unfold RefEnv.usesOf RefEnv.maxUses
  induction env.usesMap with
  | nil => simp [List.lookup]
  | cons a rest ih =>
    obtain ⟨k, v⟩ := a
    simp only [List.lookup, List.map_cons, List.foldr_cons]
    by_cases hk : (key == k) = true
    · simp only [hk]
      exact le_max_of_le_left (by simp)
    · simp only [Bool.not_eq_true] at hk
      simp only [hk]
      exact le_max_of_le_right ih

theorem collectReferencesGo_seen_mono (env : RefEnv) :
    ∀ (fuel : Nat) (uses stack : List Use) (depth : Nat) (seen : Finset Nat)
      (res : List InvalidUse) (seen2 : Finset Nat),
      collectReferencesGo env fuel uses stack depth seen = some (res, seen2) →
      seen ⊆ seen2 := by
  intro fuel
  induction fuel with
  | zero =>
    intro uses stack depth seen res seen2 h
    simp [collectReferencesGo] at h
  | succ f ih =>
    intro uses stack depth seen res seen2 h
    match uses with
    | [] =>
      simp only [collectReferencesGo, Option.some.injEq, Prod.mk.injEq] at h
      exact h.2 ▸ Finset.Subset.refl seen
    | u :: rest =>
      rw [collectReferencesGo] at h
      cases hcont : findContainer u with
      | none =>
        rw [hcont] at h
        dsimp only [] at h
        exact ih rest stack depth seen res seen2 h
      | some c =>
        rw [hcont] at h
        dsimp only [] at h
        by_cases hskip : c.id ∈ seen ∨ c.kind = SKind.constructorDeclaration
        · rw [if_pos hskip] at h
          exact ih rest stack depth seen res seen2 h
        · rw [if_neg hskip] at h
          cases hsub : collectReferencesGo env f (env.usesOf (c.nameId.getD c.id))
              (stack ++ [u]) (depthForContainer c (depthAfterUse u depth))
              (insert c.id seen) with
          | none =>
            rw [hsub] at h
            exact Option.noConfusion h
          | some p =>
            obtain ⟨sub, seenMid⟩ := p
            rw [hsub] at h
            dsimp only [] at h
            cases htail : collectReferencesGo env f rest stack depth seenMid with
            | none =>
              rw [htail] at h
              exact Option.noConfusion h
            | some q =>
              obtain ⟨tail, seenEnd⟩ := q
              rw [htail] at h
              dsimp only [] at h
              simp only [Option.some.injEq, Prod.mk.injEq] at h
              have h1 : seen ⊆ insert c.id seen := Finset.subset_insert _ _
              have h2 : insert c.id seen ⊆ seenMid := ih _ _ _ _ _ _ hsub
              have h3 : seenMid ⊆ seenEnd := ih _ _ _ _ _ _ htail
              exact h.2 ▸ (h1.trans h2).trans h3

theorem collectReferencesGo_isSome_of_fuel (env : RefEnv) (hwf : RefEnvWF env) :
    ∀ (fuel : Nat) (uses stack : List Use) (depth : Nat) (seen : Finset Nat),
      UsesOk env uses →
      uses.length + (env.containerIds \ seen).card * (env.maxUses + 2) < fuel →
      (collectReferencesGo env fuel uses stack depth seen).isSome := by
  intro fuel
  induction fuel with
  | zero =>
    intro uses stack depth seen _ hlt
    exact absurd hlt (Nat.not_lt_zero _)
  | succ f ih =>
    intro uses stack depth seen hok hlt
    match uses with
    | [] => simp [collectReferencesGo]
    | u :: rest =>
      have hokrest : UsesOk env rest := fun v hv => hok v (List.mem_cons_of_mem _ hv)
      have hltrest : rest.length + (env.containerIds \ seen).card * (env.maxUses + 2) < f := by
        have hlen : (u :: rest).length = rest.length + 1 := by simp
        rw [hlen] at hlt
        generalize (env.containerIds \ seen).card * (env.maxUses + 2) = K at hlt ⊢
        omega
      rw [collectReferencesGo]
      cases hcont : findContainer u with
      | none =>
        dsimp only []
        exact ih rest stack depth seen hokrest hltrest
      | some c =>
        dsimp only []
        by_cases hskip : c.id ∈ seen ∨ c.kind = SKind.constructorDeclaration
        · rw [if_pos hskip]
          exact ih rest stack depth seen hokrest hltrest
        · rw [if_neg hskip]
          have hcid : c.id ∈ env.containerIds := hok u (List.mem_cons_self _ _) c hcont
          have hnot : c.id ∉ seen := fun hmem => hskip (Or.inl hmem)
          have hmemd : c.id ∈ env.containerIds \ seen := Finset.mem_sdiff.mpr ⟨hcid, hnot⟩
          have hcard : (env.containerIds \ insert c.id seen).card + 1 =
              (env.containerIds \ seen).card := by
            rw [Finset.sdiff_insert, Finset.card_erase_of_mem hmemd]
            have hpos : 0 < (env.containerIds \ seen).card :=
              Finset.card_pos.mpr ⟨_, hmemd⟩
            omega
          have hUlen : (env.usesOf (c.nameId.getD c.id)).length ≤ env.maxUses :=
            usesOf_length_le_maxUses env _
          have hmul : (env.containerIds \ seen).card * (env.maxUses + 2) =
              (env.containerIds \ insert c.id seen).card * (env.maxUses + 2)
                + (env.maxUses + 2) := by
            rw [← hcard, Nat.succ_mul]
          have hboundSub :
              (env.usesOf (c.nameId.getD c.id)).length +
                (env.containerIds \ insert c.id seen).card * (env.maxUses + 2) < f := by
            have hlen : (u :: rest).length = rest.length + 1 := by simp
            rw [hlen, hmul] at hlt
            generalize (env.containerIds \ insert c.id seen).card * (env.maxUses + 2) = K
              at hlt ⊢
            omega
          have hsubSome := ih (env.usesOf (c.nameId.getD c.id)) (stack ++ [u])
            (depthForContainer c (depthAfterUse u depth)) (insert c.id seen)
            (hwf _) hboundSub
          cases hsub : collectReferencesGo env f (env.usesOf (c.nameId.getD c.id))
              (stack ++ [u]) (depthForContainer c (depthAfterUse u depth))
              (insert c.id seen) with
          | none =>
            rw [hsub] at hsubSome
            exact absurd hsubSome (by simp)
          | some p =>
            obtain ⟨sub, seenMid⟩ := p
            dsimp only []
            have hmono : insert c.id seen ⊆ seenMid :=
              collectReferencesGo_seen_mono env f _ _ _ _ _ _ hsub
            have hcard2 : (env.containerIds \ seenMid).card ≤
                (env.containerIds \ insert c.id seen).card :=
              Finset.card_le_card (Finset.sdiff_subset_sdiff (Finset.Subset.refl _) hmono)
            have hboundTail :
                rest.length + (env.containerIds \ seenMid).card * (env.maxUses + 2) < f := by
              have hmul2 : (env.containerIds \ seenMid).card * (env.maxUses + 2) ≤
                  (env.containerIds \ insert c.id seen).card * (env.maxUses + 2) :=
                Nat.mul_le_mul_right _ hcard2
              have hlen : (u :: rest).length = rest.length + 1 := by simp
              rw [hlen, hmul] at hlt
              generalize hA : (env.containerIds \ insert c.id seen).card * (env.maxUses + 2) = A
                at hlt hmul2
              generalize (env.containerIds \ seenMid).card * (env.maxUses + 2) = B
                at hlt hmul2 ⊢
              omega
            have htailSome := ih rest stack depth seenMid hokrest hboundTail
            cases htail : collectReferencesGo env f rest stack depth seenMid with
            | none =>
              rw [htail] at htailSome
              exact absurd htailSome (by simp)
            | some q =>
              obtain ⟨tail, seenEnd⟩ := q
              rfl

/-- C9: the reference-graph search terminates on every well-formed
reference environment, cyclic reference graphs included: each container
is entered at most once per search root (the identity-keyed visited set
is checked before entry and threaded through all recursive calls), so
the fuel budget sized from the container universe is never exhausted. -/
theorem collectReferences_terminates :
    ∀ (env : RefEnv), RefEnvWF env → ∀ (startKey : Nat),
      (collectReferencesGo env (defaultFuel env (env.usesOf startKey))
        (env.usesOf startKey) [] 0 ∅).isSome := by
  intro env hwf startKey
  apply collectReferencesGo_isSome_of_fuel env hwf _ _ [] 0 ∅ (hwf startKey)
  unfold defaultFuel
  rw [Finset.sdiff_empty]
  exact Nat.lt_succ_self _

/-! Witness: a cyclic reference graph of two mutually referencing
methods. -/

def rnMethodOne : RNode :=
  { rnodeBase with
      id := 40
      kind := .methodDeclaration
      nameId := some 41
      nameText := "m1" }

def rnMethodTwo : RNode :=
  { rnodeBase with
      id := 42
      kind := .methodDeclaration
      nameId := some 43
      nameText := "m2" }

/-- A use of method one inside method two's body, and vice versa. -/
def useOneInTwo : Use :=
  { node := { rnodeBase with id := 44, kind := .identifier, text := "m1" },
    ancestors := [rnMethodTwo, rnClassC2] }

def useTwoInOne : Use :=
  { node := { rnodeBase with id := 45, kind := .identifier, text := "m2" },
    ancestors := [rnMethodOne, rnClassC2] }

def envCyclic : RefEnv :=
  { usesMap := [(41, [useOneInTwo]), (43, [useTwoInOne])], containerIds := {40, 42} }

theorem envCyclic_wf : RefEnvWF envCyclic := by
  intro key u hu c hc
  simp only [envCyclic, RefEnv.usesOf, List.lookup] at hu
  by_cases h41 : (key == 41) = true
  · simp only [h41] at hu
    simp only [Option.getD_some, List.mem_singleton] at hu
    subst hu
    have : c = rnMethodTwo := by
      have hc2 : findContainer useOneInTwo = some rnMethodTwo := by decide
      rw [hc] at hc2
      exact (Option.some.injEq _ _).mp hc2.symm ▸ rfl
    subst this
    decide
  · simp only [Bool.not_eq_true] at h41
    simp only [h41] at hu
    by_cases h43 : (key == 43) = true
    · simp only [h43] at hu
      simp only [Option.getD_some, List.mem_singleton] at hu
      subst hu
      have : c = rnMethodOne := by
        have hc2 : findContainer useTwoInOne = some rnMethodOne := by decide
        rw [hc] at hc2
        exact (Option.some.injEq _ _).mp hc2.symm ▸ rfl
      subst this
      decide
    · simp only [Bool.not_eq_true] at h43
      simp only [h43, Option.getD_none, List.not_mem_nil] at hu

theorem collectReferences_terminates_witness :
    (collectReferencesGo envCyclic (defaultFuel envCyclic (envCyclic.usesOf 41))
      (envCyclic.usesOf 41) [] 0 ∅).isSome :=
  collectReferences_terminates envCyclic envCyclic_wf 41

/-! ### C4: the decorated findReferences -/

/-- Exhaustive behaviour of the decorated `findReferences`: it either
returns the baseline unchanged, or — when the query lands on a
constructor keyword and the first baseline group's definition is a
class element — returns the baseline with extra references appended to
the first group only. -/
theorem decorateFindReferences_cases (svc : LanguageService) (fileName : String)
    (position : Nat) :
    decorateFindReferences svc fileName position = svc.findReferences fileName position ∨
    ∃ g0 gs extras, svc.findReferences fileName position = some (g0 :: gs) ∧
      g0.definition.kind = ScriptElementKind.classElement ∧
      decorateFindReferences svc fileName position =
        some ({ g0 with references := g0.references ++ extras } :: gs) := by
  unfold decorateFindReferences
  cases hp : svc.getProgram.bind (fun p => p.getSourceFile fileName) with
  | none => left; rfl
  | some sf =>
    dsimp only []
    obtain ⟨n, hn⟩ := findLeafNodeAtPosition_exists sf.tree position
    rw [hn]
    dsimp only []
    by_cases hk : kindOf n = SKind.constructorKeyword
    · rw [if_neg (not_not_intro hk)]
      cases hres : svc.findReferences fileName position with
      | none => left; rfl
      | some l =>
        cases l with
        | nil => left; rfl
        | cons g0 gs =>
          dsimp only []
          by_cases hkind : g0.definition.kind = ScriptElementKind.classElement
          · rw [if_neg (not_not_intro hkind)]
            right
            refine ⟨g0, gs, _, rfl, hkind, rfl⟩
          · rw [if_pos hkind]
            left; rfl
    · rw [if_pos hk]
      left; rfl

/-- C4 amended: the decorated `findReferences` falls back to the
unmodified baseline when the baseline is undefined or empty or when the
first group's definition is not a class element; in every case it keeps
all baseline groups, at most appending extra references to the first
group, and it fails exactly when the baseline fails.  (The original
claim — that a baseline of two or more groups is returned unchanged —
is false: the code only guards against an empty or undefined baseline
and still augments the first of several groups.) -/
theorem findReferences_fallback_behavior :
    ∀ (svc : LanguageService) (fileName : String) (position : Nat),
      (svc.findReferences fileName position = none →
        decorateFindReferences svc fileName position = none) ∧
      (svc.findReferences fileName position = some [] →
        decorateFindReferences svc fileName position = some []) ∧
      (∀ g0 gs, svc.findReferences fileName position = some (g0 :: gs) →
        g0.definition.kind ≠ ScriptElementKind.classElement →
        decorateFindReferences svc fileName position = some (g0 :: gs)) ∧
      (∀ g0 gs, svc.findReferences fileName position = some (g0 :: gs) →
        ∃ extras, decorateFindReferences svc fileName position =
          some ({ g0 with references := g0.references ++ extras } :: gs)) ∧
      (decorateFindReferences svc fileName position).isSome =
        (svc.findReferences fileName position).isSome := by
  intro svc fileName position
  have hmaster := decorateFindReferences_cases svc fileName position
  refine ⟨?_, ?_, ?_, ?_, ?_⟩
  · intro hnone
    rcases hmaster with h | ⟨g0, gs, extras, hres, _, _⟩
    · rw [h, hnone]
    · rw [hnone] at hres; cases hres
  · intro hempty
    rcases hmaster with h | ⟨g0, gs, extras, hres, _, _⟩
    · rw [h, hempty]
    · rw [hempty] at hres; cases hres
  · intro g0 gs hres hkind
    rcases hmaster with h | ⟨g1, gs1, extras, hres1, hkind1, hdec⟩
    · rw [h, hres]
    · rw [hres] at hres1
      obtain ⟨h1, h2⟩ : g1 = g0 ∧ gs1 = gs := by
        have := Option.some.inj hres1
        exact ⟨(List.cons.inj this.symm).1, (List.cons.inj this.symm).2⟩
      subst h1; subst h2
      exact absurd hkind1 hkind
  · intro g0 gs hres
    rcases hmaster with h | ⟨g1, gs1, extras, hres1, hkind1, hdec⟩
    · refine ⟨[], ?_⟩
      rw [h, hres]
      obtain ⟨gdef, grefs⟩ := g0
      simp
    · rw [hres] at hres1
      obtain ⟨h1, h2⟩ : g1 = g0 ∧ gs1 = gs := by
        have := Option.some.inj hres1
        exact ⟨(List.cons.inj this.symm).1, (List.cons.inj this.symm).2⟩
      subst h1; subst h2
      exact ⟨extras, hdec⟩
  · rcases hmaster with h | ⟨g0, gs, extras, hres, _, hdec⟩
    · rw [h]
    · rw [hres, hdec]; rfl

/-! Counterexample service: a query on the constructor keyword whose
baseline contains two reference groups, the first with a class-element
definition; a class reference used as a bare argument of `f(Test)` gets
appended to the first group, so the decorated result differs from the
baseline even though the baseline does not consist of exactly one
group. -/

def treeC4 : ANode :=
  ANode.sourceFile 0 0 100
    [ANode.classDecl 5 5 60 "Test"
      [ANode.ctorDecl 8 8 58 (ANode.tok .constructorKeyword 10 10 21) []
        (some (ANode.blockNode 22 22 58 []))],
     ANode.exprStmt 65 65 85
       (ANode.call 66 66 84 (ANode.ident 66 66 67 "f") [ANode.ident 70 70 74 "Test"])]

def initTreeC4 : RTree := RTree.node rnodeBase []

def classGroupC4 : ReferencedSymbol :=
  { definition :=
      { fileName := "a.ts", textSpan := { start := 5, length := 4 },
        kind := ScriptElementKind.classElement, name := "Test", containerName := "" },
    references := [] }

def otherGroupC4 : ReferencedSymbol :=
  { definition :=
      { fileName := "a.ts", textSpan := { start := 0, length := 0 },
        kind := ScriptElementKind.otherElement, name := "x", containerName := "" },
    references := [] }

def argRefC4 : ReferenceEntry := { fileName := "a.ts", textSpan := { start := 70, length := 4 } }

def classRefsGroupC4 : ReferencedSymbol :=
  { definition :=
      { fileName := "a.ts", textSpan := { start := 5, length := 4 },
        kind := ScriptElementKind.classElement, name := "Test", containerName := "" },
    references := [argRefC4] }

def progC4 : Program :=
  { getSourceFile := fun _ => some { tree := treeC4, initTree := initTreeC4 },
    refEnv := { usesMap := [], containerIds := ∅ } }

def svcC4 : LanguageService :=
  { getSemanticDiagnostics := fun _ => [],
    getDefinitionAndBoundSpan := fun _ _ => none,
    getDefinitionAtPosition := fun _ _ => none,
    findReferences := fun _ p =>
      if p == 15 then some [classGroupC4, otherGroupC4]
      else if p == 5 then some [classRefsGroupC4]
      else none,
    getProgram := some progC4 }

/-- C4 counterexample: with a two-group baseline whose first
definition is a class element, the decorated `findReferences` does not
return the baseline unchanged — it appends the indirect constructor
reference to the first group. -/
theorem findReferences_two_groups_modified :
    decorateFindReferences svcC4 "a.ts" 15 ≠ svcC4.findReferences "a.ts" 15 := by decide

theorem findReferences_fallback_behavior_witness :
    ∃ extras, decorateFindReferences svcC4 "a.ts" 15 =
      some ({ classGroupC4 with
                references := classGroupC4.references ++ extras } :: [otherGroupC4]) :=
  ((findReferences_fallback_behavior svcC4 "a.ts" 15).2.2.2.1) classGroupC4 [otherGroupC4]
    (by decide)

/-! ### C5: untyped-field redirection -/

/-- The statement shape `findFirstTopLevelPropertyAssignment` looks
for: an expression statement whose expression is a binary `=` whose
left-hand side is `this.<name>` with the matching name. -/
def isThisAssignmentTo (propertyName : String) (stmt : ANode) : Bool :=
  match stmt with
  | .exprStmt _ _ _ (.binary _ _ _ (.propAccess _ _ _ obj nameTok) op _) =>
      decide (kindOf op = SKind.equalsToken) && decide (kindOf obj = SKind.thisKeyword)
        && decide (nodeTextOf nameTok = propertyName)
  | _ => false

/-- The left-hand side returned for a matching statement. -/
def assignmentTarget : ANode → Option ANode
  | .exprStmt _ _ _ (.binary _ _ _ lhs _ _) => some lhs
  | _ => none

/-- The host-facing scenario of the untyped-field redirection: the
baseline's first entry is a member variable whose definition file
resolves, the node at the definition span walks up to a property
declaration `P` inside class `C`, and `C` has a constructor with a
body; `nameTok` is `P`'s name token. -/
def RedirectScenario (svc : LanguageService) (fileName : String) (position : Nat)
    (d0 : DefinitionInfo) (rest : List DefinitionInfo) (program : Program)
    (sourceFile defSourceFile : SourceFileData) (path : List ANode)
    (P C ctor body nameTok : ANode) : Prop :=
  svc.getProgram = some program ∧
  program.getSourceFile fileName = some sourceFile ∧
  svc.getDefinitionAtPosition fileName position = some (d0 :: rest) ∧
  d0.kind = ScriptElementKind.memberVariableElement ∧
  program.getSourceFile d0.fileName = some defSourceFile ∧
  findNodePath defSourceFile.tree d0.textSpan.start = some path ∧
  upToPropertyDecl path.reverse = some (P, some C) ∧
  kindOf C = SKind.classDeclaration ∧
  (classMembers C).find? (fun m => kindOf m == SKind.constructorDeclaration) = some ctor ∧
  ctorBody ctor = some body ∧
  propDeclNameTok P = some nameTok ∧
  nodeTextOf nameTok ≠ ""

theorem tryRedirect_eval (svc : LanguageService) (fileName : String) (position : Nat)
    (d0 : DefinitionInfo) (rest : List DefinitionInfo) (program : Program)
    (sourceFile defSourceFile : SourceFileData) (path : List ANode)
    (P C ctor body nameTok : ANode)
    (h : RedirectScenario svc fileName position d0 rest program sourceFile defSourceFile
      path P C ctor body nameTok) :
    tryRedirectUntypedFieldToConstructorAssignment svc fileName position
        (some (d0 :: rest)) =
      (if (propDeclTypeAnn P).isSome then none
       else
         match findFirstTopLevelPropertyAssignment body (nodeTextOf nameTok) with
         | none => none
         | some firstAssignment =>
           match propAccessNameTok firstAssignment with
           | none => none
           | some assignNameTok =>
             some [{ d0 with
               textSpan := { start := nodeStart assignNameTok,
                             length := nodeEnd assignNameTok - nodeStart assignNameTok },
               name := nodeTextOf nameTok,
               kind := ScriptElementKind.localVariableElement }]) := by
  obtain ⟨h1, h2, h3, h4, h5, h6, h7, h8, h9, h10, h11, h12⟩ := h
  unfold tryRedirectUntypedFieldToConstructorAssignment
  rw [h1]
  try dsimp only []
  rw [h2]
  try dsimp only []
  obtain ⟨n, hn⟩ := findLeafNodeAtPosition_exists sourceFile.tree position
  rw [hn]
  try dsimp only []
  rw [if_neg (not_not_intro h4)]
  rw [h5]
  try dsimp only []
  rw [h6]
  try dsimp only []
  rw [h7]
  try dsimp only []
  by_cases hty : (propDeclTypeAnn P).isSome = true
  · rw [if_pos hty, if_pos hty]
  · rw [if_neg hty, if_neg hty]
    try dsimp only []
    rw [if_neg (not_not_intro h8)]
    rw [h9]
    try dsimp only []
    rw [h10]
    try dsimp only []
    rw [h11]
    try dsimp only []
    rw [if_neg h12]

/-- C5: the untyped-field redirection.  First conjunct: the assignment
search scans exactly the top-level statements of the constructor body
for the first statement of the form `this.<name> = <value>` with
matching name (it never enters nested blocks).  Remaining conjuncts:
whenever the baseline's first entry targets an untyped class member
variable and a qualifying assignment exists, the decorated
`getDefinitionAtPosition` returns the single synthetic entry whose span
is the member-name token of that assignment with local-variable kind;
when the field is typed, or no top-level assignment matches, the
baseline is returned unchanged. -/
theorem untyped_field_redirection :
    (∀ (block : ANode) (nm : String),
      findFirstTopLevelPropertyAssignment block nm =
        ((blockStatements block).find? (isThisAssignmentTo nm)).bind assignmentTarget) ∧
    (∀ (svc : LanguageService) (fileName : String) (position : Nat)
        (d0 : DefinitionInfo) (rest : List DefinitionInfo) (program : Program)
        (sourceFile defSourceFile : SourceFileData) (path : List ANode)
        (P C ctor body nameTok pa assignNameTok : ANode),
      RedirectScenario svc fileName position d0 rest program sourceFile defSourceFile
        path P C ctor body nameTok →
      propDeclTypeAnn P = none →
      findFirstTopLevelPropertyAssignment body (nodeTextOf nameTok) = some pa →
      propAccessNameTok pa = some assignNameTok →
      decorateGetDefinitionAtPosition svc fileName position =
        some [{ d0 with
          textSpan := { start := nodeStart assignNameTok,
                        length := nodeEnd assignNameTok - nodeStart assignNameTok },
          name := nodeTextOf nameTok,
          kind := ScriptElementKind.localVariableElement }]) ∧
    (∀ (svc : LanguageService) (fileName : String) (position : Nat)
        (d0 : DefinitionInfo) (rest : List DefinitionInfo) (program : Program)
        (sourceFile defSourceFile : SourceFileData) (path : List ANode)
        (P C ctor body nameTok : ANode),
      RedirectScenario svc fileName position d0 rest program sourceFile defSourceFile
        path P C ctor body nameTok →
      propDeclTypeAnn P = none →
      findFirstTopLevelPropertyAssignment body (nodeTextOf nameTok) = none →
      decorateGetDefinitionAtPosition svc fileName position = some (d0 :: rest)) ∧
    (∀ (svc : LanguageService) (fileName : String) (position : Nat)
        (d0 : DefinitionInfo) (rest : List DefinitionInfo) (program : Program)
        (sourceFile defSourceFile : SourceFileData) (path : List ANode)
        (P C ctor body nameTok : ANode),
      RedirectScenario svc fileName position d0 rest program sourceFile defSourceFile
        path P C ctor body nameTok →
      (propDeclTypeAnn P).isSome = true →
      decorateGetDefinitionAtPosition svc fileName position = some (d0 :: rest)) := by
  refine ⟨?_, ?_, ?_, ?_⟩
  · intro block nm
    unfold findFirstTopLevelPropertyAssignment
    induction blockStatements block with
    | nil => rfl
    | cons stmt rest ih =>
      cases stmt with
      | exprStmt pos st en e =>
        cases e with
        | binary p2 s2 e2 lhs op rhs =>
          cases lhs with
          | propAccess p3 s3 e3 obj nameTok =>
            by_cases hop : kindOf op = SKind.equalsToken
            · by_cases hobj : kindOf obj = SKind.thisKeyword
              · by_cases hnm : nodeTextOf nameTok = nm
                · simp [findFirstTopLevelPropertyAssignmentList, isThisAssignmentTo,
                    List.find?, hop, hobj, hnm, assignmentTarget]
                · simp [findFirstTopLevelPropertyAssignmentList, isThisAssignmentTo,
                    List.find?, hop, hobj, hnm, ih]
              · simp [findFirstTopLevelPropertyAssignmentList, isThisAssignmentTo,
                  List.find?, hop, hobj, ih]
            · simp [findFirstTopLevelPropertyAssignmentList, isThisAssignmentTo,
                List.find?, hop, ih]
          | _ =>
            first
            | simp [findFirstTopLevelPropertyAssignmentList, isThisAssignmentTo,
                List.find?, ih]
        | _ =>
          first
          | simp [findFirstTopLevelPropertyAssignmentList, isThisAssignmentTo,
              List.find?, ih]
      | _ =>
        first
        | simp [findFirstTopLevelPropertyAssignmentList, isThisAssignmentTo,
            List.find?, ih]
  · intro svc fileName position d0 rest program sourceFile defSourceFile path
      P C ctor body nameTok pa assignNameTok h hty hfound hname
    have hr := tryRedirect_eval svc fileName position d0 rest program sourceFile
      defSourceFile path P C ctor body nameTok h
    rw [hty] at hr
    simp only [Option.isSome_none, Bool.false_eq_true, if_false, hfound, hname] at hr
    obtain ⟨h1, h2, h3, h4, h5, h6, h7, h8, h9, h10, h11, h12⟩ := h
    unfold decorateGetDefinitionAtPosition
    rw [h3]
    try dsimp only []
    rw [hr]
  · intro svc fileName position d0 rest program sourceFile defSourceFile path
      P C ctor body nameTok h hty hfound
    have hr := tryRedirect_eval svc fileName position d0 rest program sourceFile
      defSourceFile path P C ctor body nameTok h
    rw [hty] at hr
    simp only [Option.isSome_none, Bool.false_eq_true, if_false, hfound] at hr
    obtain ⟨h1, h2, h3, h4, h5, h6, h7, h8, h9, h10, h11, h12⟩ := h
    unfold decorateGetDefinitionAtPosition
    rw [h3]
    try dsimp only []
    rw [hr]
    try dsimp only []
    rw [shouldIgnoreFirst_false_of_first_kind rest (by simp [h4])]
    simp
  · intro svc fileName position d0 rest program sourceFile defSourceFile path
      P C ctor body nameTok h hty
    have hr := tryRedirect_eval svc fileName position d0 rest program sourceFile
      defSourceFile path P C ctor body nameTok h
    rw [if_pos hty] at hr
    obtain ⟨h1, h2, h3, h4, h5, h6, h7, h8, h9, h10, h11, h12⟩ := h
    unfold decorateGetDefinitionAtPosition
    rw [h3]
    try dsimp only []
    rw [hr]
    try dsimp only []
    rw [shouldIgnoreFirst_false_of_first_kind rest (by simp [h4])]
    simp

/-! Witness: the repository's conditional-assignment scenario.

  class FooBar {
    public myField;
    constructor() {
      if (true) { this.myField = 1; }
      this.myField = 2;
    }
  }

Go-to-definition on a read of `myField` must land on the name token of
the top-level `this.myField = 2`, skipping the assignment nested in the
`if` block. -/

def nameTokW5 : ANode := ANode.ident 20 20 27 "myField"

def pW5 : ANode := ANode.propertyDecl 15 15 28 [] nameTokW5 none none

def identInnerW5 : ANode := ANode.ident 50 50 57 "myField"

def stmtInnerW5 : ANode :=
  ANode.exprStmt 44 44 62
    (ANode.binary 45 45 61
      (ANode.propAccess 45 45 57 (ANode.thisKw 45 45 49) identInnerW5)
      (ANode.tok .equalsToken 58 58 59) (ANode.lit 60 60 61 "1"))

def ifW5 : ANode :=
  ANode.ifStmt 35 35 63 (ANode.lit 39 39 43 "true") (ANode.blockNode 42 42 63 [stmtInnerW5])

def identTopW5 : ANode := ANode.ident 70 70 77 "myField"

def stmtTopW5 : ANode :=
  ANode.exprStmt 64 64 82
    (ANode.binary 65 65 81
      (ANode.propAccess 65 65 77 (ANode.thisKw 65 65 69) identTopW5)
      (ANode.tok .equalsToken 78 78 79) (ANode.lit 80 80 81 "2"))

def bodyW5 : ANode := ANode.blockNode 33 33 83 [ifW5, stmtTopW5]

def ctorW5 : ANode :=
  ANode.ctorDecl 29 29 84 (ANode.tok .constructorKeyword 29 29 32) [] (some bodyW5)

def classW5 : ANode := ANode.classDecl 10 10 90 "FooBar" [pW5, ctorW5]

def treeW5 : ANode := ANode.sourceFile 0 0 100 [classW5]

def pathW5 : List ANode := [treeW5, classW5, pW5, nameTokW5]

def d0W5 : DefinitionInfo :=
  { fileName := "main.ts", textSpan := { start := 20, length := 7 },
    kind := ScriptElementKind.memberVariableElement, name := "myField",
    containerName := "FooBar" }

def sfdW5 : SourceFileData := { tree := treeW5, initTree := initTreeC4 }

def progW5 : Program :=
  { getSourceFile := fun _ => some sfdW5, refEnv := { usesMap := [], containerIds := ∅ } }

def svcC5 : LanguageService :=
  { getSemanticDiagnostics := fun _ => [],
    getDefinitionAndBoundSpan := fun _ _ => none,
    getDefinitionAtPosition := fun _ _ => some [d0W5],
    findReferences := fun _ _ => none,
    getProgram := some progW5 }

def paTopW5 : ANode :=
  ANode.propAccess 65 65 77 (ANode.thisKw 65 65 69) identTopW5

theorem untyped_field_redirection_witness :
    decorateGetDefinitionAtPosition svcC5 "main.ts" 95 =
      some [{ fileName := "main.ts", textSpan := { start := 70, length := 7 },
              kind := ScriptElementKind.localVariableElement, name := "myField",
              containerName := "FooBar" }] := by
  have hsc : RedirectScenario svcC5 "main.ts" 95 d0W5 [] progW5 sfdW5 sfdW5 pathW5
      pW5 classW5 ctorW5 bodyW5 nameTokW5 :=
    ⟨rfl, rfl, rfl, rfl, rfl, rfl, rfl, rfl, rfl, rfl, rfl, by decide⟩
  have h := (untyped_field_redirection).2.1 svcC5 "main.ts" 95 d0W5 [] progW5 sfdW5 sfdW5
    pathW5 pW5 classW5 ctorW5 bodyW5 nameTokW5 paTopW5 identTopW5 hsc rfl rfl rfl
  exact h

end TsPlugin
